import Mathlib

/-!
A shallow embedding of the CSV validation/repair engine of
`CSV-Validate-Repair.py` (scanner-crc-organizer).

Strings are modelled as `List Char`; Python string primitives
(`strip`, `upper`, `isdigit`, `int(...)`, `re.sub` with the concrete
patterns the script uses, `str.split`, `csv.reader` on a single line)
are modelled on the ASCII fragment, which is the fragment the script's
own character classes (`[0-9A-Fa-f]`, `\d`, `[<>:"|?*\x00-\x1f]`)
live in.  Every definition mirrors the corresponding Python source
line by line; theorems at the end settle the frozen claims.
-/

set_option maxHeartbeats 2000000
set_option maxRecDepth 4000

/-- Shorthand: a Lean string literal viewed as the `List Char` model. -/
def S (s : String) : List Char := s.toList

/-- ASCII uppercase conversion of one character: model of the action of
Python `str.upper` on `a`-`z` (other characters are unchanged). -/
def upperChar (c : Char) : Char :=
  if 97 ≤ c.toNat ∧ c.toNat ≤ 122 then Char.ofNat (c.toNat - 32) else c

/-- ASCII lowercase conversion of one character: model of the action of
Python `str.lower` on `A`-`Z` (other characters are unchanged). -/
def lowerChar (c : Char) : Char :=
  if 65 ≤ c.toNat ∧ c.toNat ≤ 90 then Char.ofNat (c.toNat + 32) else c

/-- Characters matched by the script's regex class `[0-9A-Fa-f]`. -/
def isHexChar (c : Char) : Bool :=
  decide ((48 ≤ c.toNat ∧ c.toNat ≤ 57) ∨ (65 ≤ c.toNat ∧ c.toNat ≤ 70) ∨
    (97 ≤ c.toNat ∧ c.toNat ≤ 102))

/-- Characters matched by the regex class `[0-9A-F]`. -/
def isUpperHexChar (c : Char) : Bool :=
  decide ((48 ≤ c.toNat ∧ c.toNat ≤ 57) ∨ (65 ≤ c.toNat ∧ c.toNat ≤ 70))

/-- Characters matched by the regex class `\d` (ASCII digits). -/
def isDigitChar (c : Char) : Bool :=
  decide (48 ≤ c.toNat ∧ c.toNat ≤ 57)

/-- Whitespace as stripped by Python `str.strip()` (ASCII fragment:
space, tab, LF, VT, FF, CR). -/
def isPySpace (c : Char) : Bool :=
  decide (c.toNat = 32 ∨ (9 ≤ c.toNat ∧ c.toNat ≤ 13))

theorem char_toNat_ofNat {n : Nat} (h : n.isValidChar) : (Char.ofNat n).toNat = n := by
  unfold Char.ofNat
  rw [dif_pos h]
  simp [Char.ofNatAux, Char.toNat, UInt32.toNat]

theorem toNat_upperChar (c : Char) :
    (upperChar c).toNat = if 97 ≤ c.toNat ∧ c.toNat ≤ 122 then c.toNat - 32 else c.toNat := by
  unfold upperChar
  split
  · next h => exact char_toNat_ofNat (Or.inl (by omega))
  · rfl

theorem isHexChar_upperChar (c : Char) : isHexChar (upperChar c) = isHexChar c := by
  simp only [isHexChar, toNat_upperChar, decide_eq_decide]
  split <;> omega

theorem isUpperHexChar_upperChar_of_isHexChar {c : Char} (h : isHexChar c = true) :
    isUpperHexChar (upperChar c) = true := by
  simp only [isHexChar, decide_eq_true_eq] at h
  simp only [isUpperHexChar, toNat_upperChar, decide_eq_true_eq]
  split <;> omega

theorem upperChar_upperChar (c : Char) : upperChar (upperChar c) = upperChar c := by
  unfold upperChar
  split
  · next h =>
    have hv : (Char.ofNat (c.toNat - 32)).toNat = c.toNat - 32 :=
      char_toNat_ofNat (Or.inl (by omega))
    rw [if_neg (by omega)]
  · rfl

theorem isPySpace_not_hex {c : Char} (h : isPySpace c = true) : isHexChar c = false := by
  simp only [isPySpace, decide_eq_true_eq] at h
  simp only [isHexChar, decide_eq_false_iff_not]
  omega

/-- Python `str.strip()` on the `List Char` model. -/
def pyStrip (l : List Char) : List Char :=
  ((l.dropWhile isPySpace).reverse.dropWhile isPySpace).reverse

/-- Python `str.strip('\r\n')`: strip CR/LF characters from both ends. -/
def isCRLF (c : Char) : Bool := decide (c = '\r' ∨ c = '\n')

def stripCRLF (l : List Char) : List Char :=
  ((l.dropWhile isCRLF).reverse.dropWhile isCRLF).reverse

/-- Python `str.zfill` restricted to how the script uses it: left-pad
with `'0'` up to the requested width. -/
def zfill (n : Nat) (l : List Char) : List Char :=
  List.replicate (n - l.length) '0' ++ l

/-- Python `str.isdigit()` on the ASCII fragment. -/
def pyIsDigit (l : List Char) : Bool :=
  !l.isEmpty && l.all isDigitChar

/-- Does the list end in the given character (Python `str.endswith`)? -/
def endsInChar (c : Char) (l : List Char) : Bool :=
  decide (l.getLast? = some c)

/-- `pat` is an initial segment of `s`. -/
def isLeadOf : List Char → List Char → Bool
  | [], _ => true
  | _ :: _, [] => false
  | a :: as, b :: bs => a = b && isLeadOf as bs

/-- Python `pat in s` (substring containment). -/
def hasSeg (pat : List Char) : List Char → Bool
  | [] => isLeadOf pat []
  | c :: rest => isLeadOf pat (c :: rest) || hasSeg pat rest

/-- Fuel-based worker for `replaceSeg` (the fuel is the length of the
remaining list, so it never runs out). -/
def replaceSegAux (pat rep : List Char) : Nat → List Char → List Char
  | _, [] => []
  | 0, l => l
  | fuel + 1, c :: rest =>
    if isLeadOf pat (c :: rest) ∧ pat ≠ [] then
      rep ++ replaceSegAux pat rep fuel ((c :: rest).drop pat.length)
    else
      c :: replaceSegAux pat rep fuel rest

/-- Python `s.replace(pat, rep)` for a non-empty `pat` (left-to-right,
non-overlapping).  An empty `pat` never occurs in the script. -/
def replaceSeg (pat rep l : List Char) : List Char :=
  replaceSegAux pat rep l.length l

/-- Python `s.split(sep)` for a one-character separator. -/
def splitChar (sep : Char) : List Char → List (List Char)
  | [] => [[]]
  | c :: rest =>
    let r := splitChar sep rest
    if c = sep then [] :: r
    else
      match r with
      | [] => [[c]]
      | h :: t => (c :: h) :: t

/-- Python `s.split(sep, 1)`: split at the first occurrence only,
returned as (before, after); when `sep` does not occur the second
component is `none`. -/
def splitFirst (sep : Char) : List Char → List Char × Option (List Char)
  | [] => ([], none)
  | c :: rest =>
    if c = sep then ([], some rest)
    else
      let r := splitFirst sep rest
      (c :: r.1, r.2)

/-- Decimal rendering of a natural number (Python `str(n)`). -/
def natStr (n : Nat) : List Char := Nat.toDigits 10 n

/-- Decimal rendering of an integer (Python `str(i)`). -/
def intStr (i : Int) : List Char :=
  if i < 0 then '-' :: natStr i.natAbs else natStr i.toNat

/-- Value of a list of ASCII digits. -/
def digitsVal (l : List Char) : Nat :=
  l.foldl (fun a c => a * 10 + (c.toNat - 48)) 0

/-- Python `int(s)` on an already-stripped string, on the ASCII
optional-sign decimal fragment; `none` models `ValueError`. -/
def pyIntOpt : List Char → Option Int
  | [] => none
  | '+' :: rest =>
    if rest ≠ [] ∧ rest.all isDigitChar then some (Int.ofNat (digitsVal rest)) else none
  | '-' :: rest =>
    if rest ≠ [] ∧ rest.all isDigitChar then some (-(Int.ofNat (digitsVal rest))) else none
  | c :: rest =>
    if (c :: rest).all isDigitChar then some (Int.ofNat (digitsVal (c :: rest))) else none

/-- Python `enumerate` with indices starting at `n`. -/
def pyEnum (n : Nat) : List α → List (Nat × α)
  | [] => []
  | a :: as => (n, a) :: pyEnum (n + 1) as

example : pyStrip (S "  ab c \t") = S "ab c" := by decide
example : splitChar ',' (S "a,,b") = [S "a", S "", S "b"] := by decide
example : splitChar ',' (S "") = [S ""] := by decide
example : replaceSeg (S "ab") (S "X") (S "cabab") = S "cXX" := by decide
example : hasSeg (S "\\,") (S "a\\,b") = true := by decide
example : natStr 120 = S "120" := by decide
example : intStr (-5) = S "-5" := by decide
example : pyIntOpt (S "+50") = some 50 := by decide
example : pyIntOpt (S "5x") = none := by decide
example : upperChar 'a' = 'A' := by decide
example : zfill 8 (S "1A") = S "0000001A" := by decide

/-- Model of `CSVValidationIssue` (`CSV-Validate-Repair.py`, lines 73-86). -/
structure CSVValidationIssue where
  line_num : Nat
  field_num : Nat
  field_name : List Char
  issue_type : List Char
  original_value : List Char
  repaired_value : Option (List Char)
deriving DecidableEq, Repr

/-- The configuration flags of `validate_and_repair_csv` that affect
row processing (`repair`, `normalize_crc32`, `normalize_only`). -/
structure Config where
  repair : Bool
  normalize_crc32 : Bool
  normalize_only : Bool
deriving DecidableEq, Repr

/-- Characters of the regex class `[<>:"|?*\x00-\x1f]` used by
`validate_filename`. -/
def isInvalidFileChar (c : Char) : Bool :=
  decide (c = '<' ∨ c = '>' ∨ c = ':' ∨ c = '"' ∨ c = '|' ∨ c = '?' ∨ c = '*' ∨ c.toNat ≤ 31)

/-- Characters of the regex class `[<>"|?*\x00-\x1f]` used by
`validate_path` (no colon). -/
def isInvalidPathChar (c : Char) : Bool :=
  decide (c = '<' ∨ c = '>' ∨ c = '"' ∨ c = '|' ∨ c = '?' ∨ c = '*' ∨ c.toNat ≤ 31)

/-- `validate_filename` (lines 235-263).  Returns the accepted value and
the issues appended, in order. -/
def validate_filename (filename : List Char) (line_num : Nat) (repair : Bool) :
    List Char × List CSVValidationIssue :=
  let original := filename
  if filename = [] ∨ pyStrip filename = [] then
    (S "MISSING_FILENAME.jpg",
      [⟨line_num, 1, S "FileName", S "Empty filename", original, none⟩])
  else
    let f1 := if repair then pyStrip filename else filename
    let step :=
      if f1.any isInvalidFileChar then
        if repair then
          let repaired := f1.map (fun c => if isInvalidFileChar c then '_' else c)
          (repaired,
            [⟨line_num, 1, S "FileName", S "Invalid filename characters", original, some repaired⟩])
        else
          (f1, [⟨line_num, 1, S "FileName", S "Invalid filename characters", original, none⟩])
      else (f1, [])
    let extra :=
      if repair ∧ original ≠ step.1 then
        [⟨line_num, 1, S "FileName", S "Whitespace trimmed or characters replaced", original,
          some step.1⟩]
      else []
    (step.1, step.2 ++ extra)

/-- `validate_size` (lines 266-293). -/
def validate_size (size : List Char) (line_num : Nat) (repair : Bool) :
    List Char × List CSVValidationIssue :=
  let original := size
  let s := if repair then pyStrip size else size
  if pyIsDigit s then (s, [])
  else
    let digits_only := s.filter isDigitChar
    if digits_only ≠ [] then
      if repair then
        (digits_only,
          [⟨line_num, 2, S "Size", S "Non-digit characters removed", original, some digits_only⟩])
      else
        (original, [⟨line_num, 2, S "Size", S "Non-digit characters detected", original, none⟩])
    else
      if repair then
        (S "0", [⟨line_num, 2, S "Size", S "Invalid size - no digits found", original, some (S "0")⟩])
      else
        (original, [⟨line_num, 2, S "Size", S "Invalid size - no digits found", original, none⟩])

/-- `validate_crc32` (lines 296-357). -/
def validate_crc32 (crc32 : List Char) (line_num : Nat) (repair : Bool) :
    List Char × List CSVValidationIssue :=
  let original := crc32
  let c := if repair then (pyStrip crc32).map upperChar else pyStrip crc32
  let valid := if repair then c.length = 8 && c.all isUpperHexChar
               else c.length = 8 && c.all isHexChar
  if valid then (c, [])
  else
    let hex_only := (c.filter isHexChar).map upperChar
    if hex_only.length = 8 then
      if repair then
        (hex_only,
          [⟨line_num, 3, S "CRC32", S "Non-hex characters removed", original, some hex_only⟩])
      else
        (original, [⟨line_num, 3, S "CRC32", S "Non-hex characters present", original, none⟩])
    else if 8 < hex_only.length then
      let truncated := hex_only.take 8
      if repair then
        (truncated,
          [⟨line_num, 3, S "CRC32", S "CRC32 truncated to 8 characters", original, some truncated⟩])
      else
        (original, [⟨line_num, 3, S "CRC32", S "CRC32 too long", original, none⟩])
    else if 0 < hex_only.length then
      let padded := zfill 8 hex_only
      if repair then
        (padded, [⟨line_num, 3, S "CRC32", S "CRC32 padded with zeros", original, some padded⟩])
      else
        (original, [⟨line_num, 3, S "CRC32", S "CRC32 too short", original, none⟩])
    else
      if repair then
        (S "00000000",
          [⟨line_num, 3, S "CRC32", S "Invalid CRC32 - no valid hex found", original,
            some (S "00000000")⟩])
      else
        (original, [⟨line_num, 3, S "CRC32", S "Invalid CRC32 - no valid hex found", original, none⟩])

/-- `validate_path` (lines 360-385). -/
def validate_path (path : List Char) (line_num : Nat) (repair : Bool) :
    List Char × List CSVValidationIssue :=
  let original := path
  let p1 := if repair then pyStrip path else path
  let step :=
    if p1.any isInvalidPathChar then
      if repair then
        let repaired := p1.map (fun c => if isInvalidPathChar c then '_' else c)
        (repaired,
          [⟨line_num, 4, S "Path", S "Invalid path characters removed", original, some repaired⟩])
      else
        (p1, [⟨line_num, 4, S "Path", S "Invalid path characters present", original, none⟩])
    else (p1, [])
  let extra :=
    if repair ∧ original ≠ step.1 ∧ step.1 ≠ [] then
      [⟨line_num, 4, S "Path", S "Whitespace or invalid characters removed", original, some step.1⟩]
    else []
  (step.1, step.2 ++ extra)

/-- `validate_comment` (lines 388-391): trim only, never an issue. -/
def validate_comment (comment : List Char) : List Char :=
  pyStrip comment

example : validate_crc32 (S "1a") 1 true = (S "0000001A",
  [⟨1, 3, S "CRC32", S "CRC32 padded with zeros", S "1a", some (S "0000001A")⟩]) := by decide
example : (validate_crc32 (S " ABCD1234 ") 1 false).1 = S "ABCD1234" := by decide
example : (validate_filename (S "") 1 false).1 = S "MISSING_FILENAME.jpg" := by decide
example : validate_size (S " 12 ") 1 false = (S " 12 ",
  [⟨1, 2, S "Size", S "Non-digit characters detected", S " 12 ", none⟩]) := by decide
example : (validate_path (S "a/b") 1 false) = (S "a/b", []) := by decide

/-- The placeholder `'<<<CSV_REGION_{idx}>>>'` with `idx = 0`; the
masking regex `\\(.*)\\(?=,)` is greedy, so at most one region is ever
substituted (see `maskRegion`). -/
def regionPH : List Char := S "<<<CSV_REGION_0>>>"

/-- Model of `pattern.sub(_repl, temp_line)` for the greedy pattern
`re.compile(r'\\(.*)\\(?=,)', re.DOTALL)` (lines 118-131).  A match
starts at the first backslash that is followed (strictly later) by a
backslash-immediately-before-a-comma, and greedily extends to the last
such backslash of the whole line; consequently at most one region is
replaced, and the text after it contains no further match. -/
def maskRegion (l : List Char) : List Char × Option (List Char) :=
  let n := l.length
  let js := (List.range n).filter
    (fun j => decide (l.get? j = some '\\' ∧ l.get? (j + 1) = some ','))
  match js.getLast? with
  | none => (l, none)
  | some j =>
    let is := (List.range n).filter (fun i => decide (l.get? i = some '\\' ∧ i < j))
    match is.head? with
    | none => (l, none)
    | some i =>
      (l.take i ++ regionPH ++ l.drop (j + 1), some ((l.drop i).take (j + 1 - i)))

/-- States of the `csv.reader` record parser (CPython `_csv.c`). -/
inductive CsvSt where
  | startRecord
  | eatCRNLpre
  | startField
  | inField
  | inQuoted
  | quoteInQuoted
  | eatCRNL
deriving DecidableEq, Repr

/-- `str(e)` for the `_csv.Error` raised when a CR/LF is followed by
more data inside one physical line. -/
def newlineErrMsg : List Char :=
  S "new-line character seen in unquoted field - do you need to open the file in universal-newline mode?"

/-- One `next(csv.reader(io.StringIO(s), doublequote=True))` call:
reads a single record off the character stream, with RFC-4180 double
quoting, non-strict mode, no skip-initial-space.  `Except.error`
carries `str(e)` of the exception raised (`StopIteration` has an empty
rendering). -/
def csvGo (st : CsvSt) (fields : List (List Char)) (cur : List Char) :
    List Char → Except (List Char) (List (List Char))
  | [] =>
    match st with
    | .startRecord => .error []
    | .eatCRNLpre => .error []
    | .startField => .ok (fields ++ [[]])
    | .inField => .ok (fields ++ [cur])
    | .inQuoted => .ok (fields ++ [cur])
    | .quoteInQuoted => .ok (fields ++ [cur])
    | .eatCRNL => .ok fields
  | c :: rest =>
    match st with
    | .startRecord =>
      if c = '\n' then csvGo .startRecord fields cur rest
      else if c = '\r' then csvGo .eatCRNLpre fields cur rest
      else if c = '"' then csvGo .inQuoted fields [] rest
      else if c = ',' then csvGo .startField (fields ++ [[]]) [] rest
      else csvGo .inField fields [c] rest
    | .eatCRNLpre =>
      if c = '\n' then csvGo .startRecord fields cur rest
      else if c = '\r' then csvGo .eatCRNLpre fields cur rest
      else .error newlineErrMsg
    | .startField =>
      if c = '"' then csvGo .inQuoted fields [] rest
      else if c = ',' then csvGo .startField (fields ++ [[]]) [] rest
      else if c = '\r' then csvGo .eatCRNL (fields ++ [[]]) [] rest
      else if c = '\n' then .ok (fields ++ [[]])
      else csvGo .inField fields [c] rest
    | .inField =>
      if c = ',' then csvGo .startField (fields ++ [cur]) [] rest
      else if c = '\r' then csvGo .eatCRNL (fields ++ [cur]) [] rest
      else if c = '\n' then .ok (fields ++ [cur])
      else csvGo .inField fields (cur ++ [c]) rest
    | .inQuoted =>
      if c = '"' then csvGo .quoteInQuoted fields cur rest
      else csvGo .inQuoted fields (cur ++ [c]) rest
    | .quoteInQuoted =>
      if c = '"' then csvGo .inQuoted fields (cur ++ ['"']) rest
      else if c = ',' then csvGo .startField (fields ++ [cur]) [] rest
      else if c = '\r' then csvGo .eatCRNL (fields ++ [cur]) [] rest
      else if c = '\n' then .ok (fields ++ [cur])
      else csvGo .inField fields (cur ++ [c]) rest
    | .eatCRNL =>
      if c = '\r' then csvGo .eatCRNL fields cur rest
      else if c = '\n' then .ok fields
      else .error newlineErrMsg

/-- `next(reader)` on the placeholder-substituted line (line 135-137). -/
def csvParse (l : List Char) : Except (List Char) (List (List Char)) :=
  csvGo .startRecord [] [] l

/-- `_unquote_if_quoted` (lines 150-157 and 208-214). -/
def unquoteIfQuoted (s : List Char) : List Char :=
  if 2 ≤ s.length ∧ s.head? = some '"' ∧ s.getLast? = some '"' then
    replaceSeg (S "\"\"") (S "\"") (s.drop 1).dropLast
  else s

/-- Fuel-based worker for `collapseBC`. -/
def collapseBCAux : Nat → List Char → List Char
  | _, [] => []
  | 0, l => l
  | fuel + 1, c :: rest =>
    if c = '\\' then
      match rest.dropWhile (fun d => decide (d = '\\')) with
      | ',' :: tail => '\\' :: ',' :: collapseBCAux fuel tail
      | _ => c :: collapseBCAux fuel rest
    else c :: collapseBCAux fuel rest

/-- Model of `re.sub(r'\\+,', r'\\,', f)` (lines 163 and 205): every
maximal run of backslashes immediately before a comma collapses to a
single backslash. -/
def collapseBC (l : List Char) : List Char := collapseBCAux l.length l

/-- The trailing-backslash special case (lines 171-180 and 219-228):
if the raw line contains a literal `\,` and the parse produced exactly
4 fields, split the 4th field at its first comma and restore a
trailing backslash onto the path part. -/
def applySpecialCase (line : List Char) (fields : List (List Char)) : List (List Char) :=
  if hasSeg (S "\\,") line ∧ fields.length = 4 then
    let f3 := fields.getD 3 []
    match (splitFirst ',' f3).2 with
    | none => fields
    | some comment_part =>
      let p0 := (splitFirst ',' f3).1
      let path_part := if endsInChar '\\' p0 then p0 else p0 ++ ['\\']
      [fields.getD 0 [], fields.getD 1 [], fields.getD 2 [], path_part, comment_part]
  else fields

/-- The fallback rejoin loop (lines 183-194): fragments whose
predecessor ends in a backslash are re-joined with the comma. -/
def fallbackGo (acc : List (List Char)) (cur : List Char) :
    List (List Char) → List (List Char)
  | [] => acc ++ [cur]
  | part :: rest =>
    if endsInChar '\\' cur then fallbackGo acc (cur ++ [','] ++ part) rest
    else fallbackGo (acc ++ [cur]) part rest

def fallbackJoin (parts : List (List Char)) : List (List Char) :=
  match parts with
  | [] => [[]]
  | p :: ps => fallbackGo [] p ps

/-- Restoration of the region placeholder in every field (lines
139-142 and 198-201). -/
def restoreRegions (reg : Option (List Char)) (fields : List (List Char)) :
    List (List Char) :=
  match reg with
  | some region => fields.map (replaceSeg regionPH region)
  | none => fields

/-- `parse_csv_line_with_quotes` (lines 89-232), with `line_num` and
`issues` supplied (as the pipeline does); returns the parsed fields
and the list of issues appended. -/
def parse_csv_line_with_quotes (line0 : List Char) (line_num : Nat) :
    List (List Char) × List CSVValidationIssue :=
  let line := stripCRLF line0
  let mr := maskRegion line
  match csvParse mr.1 with
  | .ok fields0 =>
    let fields1 := restoreRegions mr.2 fields0
    let fields2 := fields1.map unquoteIfQuoted
    let fields3 := fields2.map collapseBC
    (applySpecialCase line fields3, [])
  | .error msg =>
    let fields0 := fallbackJoin (splitChar ',' mr.1)
    let fields1 := restoreRegions mr.2 fields0
    let fields2 := fields1.map collapseBC
    let fields3 := fields2.map unquoteIfQuoted
    (applySpecialCase line fields3,
      [⟨line_num, 0, S "Row", S "CSV parsing error: " ++ msg, line, none⟩])

deriving instance DecidableEq for Except

example : csvParse (S "a,b,,\"c,d\"") = .ok [S "a", S "b", S "", S "c,d"] := by decide
example : csvParse (S "a,\"b\"\"c\"") = .ok [S "a", S "b\"c"] := by decide
example : csvParse (S "a\rb,c") = .error newlineErrMsg := by decide
example : csvParse (S "") = .error [] := by decide
example : maskRegion (S "x,\\Some\\Path\\,y") =
  (S "x,<<<CSV_REGION_0>>>,y", some (S "\\Some\\Path\\")) := by decide
example : maskRegion (S "a\\,b") = (S "a\\,b", none) := by decide
example : (parse_csv_line_with_quotes (S "a,b,c,d\n") 1) = ([S "a", S "b", S "c", S "d"], []) := by
  decide
example :
    (parse_csv_line_with_quotes
      (S "file.pdf,12345,ABCDEF12,\\Some\\Path\\With\\Comma\\,Comment text") 1).1 =
    [S "file.pdf", S "12345", S "ABCDEF12", S "\\Some\\Path\\With\\Comma\\", S "Comment text"] := by
  decide
example :
    (parse_csv_line_with_quotes (S "a.jpg,10,ABCDEF12,\\path\\,note, with comma") 1).1 =
    [S "a.jpg", S "10", S "ABCDEF12", S "\\path\\", S "note", S " with comma"] := by decide
example : (parse_csv_line_with_quotes (S "a\rb,c") 2) =
    ([S "a\rb", S "c"],
     [⟨2, 0, S "Row", S "CSV parsing error: " ++ newlineErrMsg, S "a\rb,c", none⟩]) := by decide

/-- Header labels accepted for field 0 (line 604). -/
def headerLabels0 : List (List Char) := [S "filename", S "file", S "name"]

/-- Header labels accepted for field 2 (line 604). -/
def headerLabels2 : List (List Char) := [S "crc32", S "crc", S "checksum"]

/-- The `Insufficient fields` issue (line 612). -/
def insufficientIssue (line_num found : Nat) (stripped : List Char) : CSVValidationIssue :=
  ⟨line_num, 0, S "Row",
    S "Insufficient fields (found " ++ natStr found ++ S ", expected at least 4)",
    stripped, none⟩

/-- Per-row validation of a (≥4-field) row (lines 615-637): the first
`validate_filename`/`validate_size` calls are made with the global
`repair` flag and their values discarded, then all four validators run
with the per-field repair flags; returns the repaired 5-field row and
all issues appended, in order. -/
def rowOut (cfg : Config) (fields : List (List Char)) (line_num : Nat) :
    List (List Char) × List CSVValidationIssue :=
  let first_fn := validate_filename (fields.getD 0 []) line_num cfg.repair
  let first_sz := validate_size (fields.getD 1 []) line_num cfg.repair
  let fieldRepair := cfg.repair && !cfg.normalize_only
  let crcRepair := cfg.normalize_crc32 || cfg.repair
  let fn := validate_filename (fields.getD 0 []) line_num fieldRepair
  let sz := validate_size (fields.getD 1 []) line_num fieldRepair
  let crc := validate_crc32 (fields.getD 2 []) line_num crcRepair
  let pth := validate_path (fields.getD 3 []) line_num fieldRepair
  let comment :=
    if 5 ≤ fields.length then validate_comment (List.intercalate [','] (fields.drop 4))
    else []
  ([fn.1, sz.1, crc.1, pth.1, comment],
    first_fn.2 ++ first_sz.2 ++ fn.2 ++ sz.2 ++ crc.2 ++ pth.2)

/-- The state threaded through the row loop of `validate_and_repair_csv`
(lines 491-495): issue log, emitted rows, their line numbers, the
line counter, and the header flag. -/
structure PipeState where
  issues : List CSVValidationIssue
  rows : List (List (List Char))
  lineNums : List Nat
  lineNum : Nat
  headerDetected : Bool
deriving DecidableEq, Repr

def initState : PipeState := ⟨[], [], [], 0, false⟩

/-- One iteration of the `for raw_line in file_content` loop
(lines 592-639). -/
def processLine (cfg : Config) (st : PipeState) (raw : List Char) : PipeState :=
  if pyStrip raw = [] then st
  else
    let ln := st.lineNum + 1
    let parsed := parse_csv_line_with_quotes raw ln
    let fields := parsed.1
    let issues1 := st.issues ++ parsed.2
    if fields = [] ∨ (fields.length = 1 ∧ fields.getD 0 [] = []) then
      { st with issues := issues1, lineNum := ln }
    else if ln = 1 ∧ 3 ≤ fields.length ∧
        ((fields.getD 0 []).map lowerChar ∈ headerLabels0 ∨
         (fields.getD 2 []).map lowerChar ∈ headerLabels2) then
      { issues := issues1, rows := st.rows ++ [fields], lineNums := st.lineNums ++ [ln],
        lineNum := ln, headerDetected := true }
    else
      let padded :=
        if fields.length < 4 then
          (fields ++ List.replicate (4 - fields.length) [],
            issues1 ++ [insufficientIssue ln fields.length (pyStrip raw)])
        else (fields, issues1)
      let row := rowOut cfg padded.1 ln
      { issues := padded.2 ++ row.2, rows := st.rows ++ [row.1],
        lineNums := st.lineNums ++ [ln], lineNum := ln,
        headerDetected := st.headerDetected }

/-- The whole row loop over the decoded file content. -/
def processLines (cfg : Config) (lines : List (List Char)) : PipeState :=
  lines.foldl (processLine cfg) initState

/-- `row[2] if len(row) >= 3 else ''` (line 648). -/
def rowCrcField (row : List (List Char)) : List Char :=
  if 3 ≤ row.length then row.getD 2 [] else []

/-- `row[1] if len(row) >= 2 else ''` (line 649). -/
def rowSizeField (row : List (List Char)) : List Char :=
  if 2 ≤ row.length then row.getD 1 [] else []

/-- `hex_only.upper().zfill(8)[:8]` on the hex characters of the
checksum (lines 651-654). -/
def normCrcOf (crc : List Char) : List Char :=
  (zfill 8 ((crc.filter isHexChar).map upperChar)).take 8

/-- Normalized size rendered as it appears inside the duplicate key
(lines 656-659): decimal rendering of `int(s.strip())` when that
parses, else the stripped string itself. -/
def normSizeStr (sizeF : List Char) : List Char :=
  match pyIntOpt (pyStrip sizeF) with
  | some i => intStr i
  | none => pyStrip sizeF

/-- The duplicate key `f"{norm}:{norm_size}"` of one row, or `none`
when the row is skipped because its checksum has no hex characters
(lines 648-662). -/
def dupKey (row : List (List Char)) : Option (List Char) :=
  if (rowCrcField row).filter isHexChar = [] then none
  else some (normCrcOf (rowCrcField row) ++ ':' :: normSizeStr (rowSizeField row))

/-- `crc_map.setdefault(key, []).append(idx)` on an insertion-ordered
association list. -/
def addKey (m : List (List Char × List Nat)) (k : List Char) (i : Nat) :
    List (List Char × List Nat) :=
  match m with
  | [] => [(k, [i])]
  | (k', g) :: rest => if k' = k then (k', g ++ [i]) :: rest else (k', g) :: addKey rest k i

/-- Is row index `idx` the skipped header row (line 645)? -/
def isHeaderIdx (headerDetected : Bool) (lineNums : List Nat) (idx : Nat) : Bool :=
  headerDetected && idx = 0 && lineNums.getD 0 0 = 1

/-- The `crc_map` built by the first loop of the duplicate pass
(lines 642-662), keyed in insertion order. -/
def crcMapAux (headerDetected : Bool) (lineNums : List Nat)
    (m : List (List Char × List Nat)) : List (Nat × List (List Char)) →
    List (List Char × List Nat)
  | [] => m
  | (idx, row) :: rest =>
    if isHeaderIdx headerDetected lineNums idx then crcMapAux headerDetected lineNums m rest
    else
      match dupKey row with
      | none => crcMapAux headerDetected lineNums m rest
      | some k => crcMapAux headerDetected lineNums (addKey m k idx) rest

def crcMap (rows : List (List (List Char))) (lineNums : List Nat) (headerDetected : Bool) :
    List (List Char × List Nat) :=
  crcMapAux headerDetected lineNums [] (pyEnum 0 rows)

/-- The rendered duplicate-issue message (line 675). -/
def dupMsg (crc_part size_part lines_str : List Char) : List Char :=
  S "Duplicate CRC32 value found; CRC=" ++ crc_part ++ S ", Size=" ++ size_part ++
    S "; also used on lines: " ++ lines_str

/-- The second loop of the duplicate pass (lines 665-675): one issue
per member of every key group with at least two members. -/
def dupIssues (rows : List (List (List Char))) (lineNums : List Nat)
    (headerDetected : Bool) : List CSVValidationIssue :=
  (crcMap rows lineNums headerDetected).flatMap (fun kg =>
    if 2 ≤ kg.2.length then
      let lines_str := List.intercalate (S ", ") (kg.2.map (fun i => natStr (lineNums.getD i 0)))
      let crc_part := (splitFirst ':' kg.1).1
      let size_part := ((splitFirst ':' kg.1).2).getD []
      kg.2.map (fun i =>
        ⟨lineNums.getD i 0, 3, S "CRC32", dupMsg crc_part size_part lines_str,
          rowCrcField (rows.getD i []), none⟩)
    else [])

example :
    (processLines ⟨false, false, false⟩ [S "a.jpg,10,ABCDEF12,\\path\\,note, with comma"]).rows =
    [[S "a.jpg", S "10", S "ABCDEF12", S "\\path\\", S "note, with comma"]] := by decide
example :
    (processLines ⟨false, false, false⟩ [S "filename,size,crc32\n"]).rows =
    [[S "filename", S "size", S "crc32"]] := by decide
example :
    (processLines ⟨false, false, false⟩ [S "filename,size,crc32\n"]).headerDetected = true := by
  decide
example :
    dupIssues [[S "a", S "5", S "AA", S "p", []], [S "b", S "5", S "aa", S "q", []]] [1, 2] false =
    [⟨1, 3, S "CRC32", dupMsg (S "000000AA") (S "5") (S "1, 2"), S "AA", none⟩,
     ⟨2, 3, S "CRC32", dupMsg (S "000000AA") (S "5") (S "1, 2"), S "aa", none⟩] := by decide
example :
    dupIssues [[S "a", S "5", S "", S "p", []], [S "b", S "5", S "", S "q", []]] [1, 2] false =
    [] := by decide

theorem filter_dropWhile_eq {p q : Char → Bool} (h : ∀ c, q c = true → p c = false)
    (l : List Char) : (l.dropWhile q).filter p = l.filter p := by
  induction l with
  | nil => rfl
  | cons c cs ih =>
    rw [List.dropWhile_cons]
    by_cases hq : q c = true
    · simp [hq, ih, List.filter_cons, h c hq]
    · simp [Bool.not_eq_true] at hq
      simp [hq]

theorem filter_pyStrip {p : Char → Bool} (h : ∀ c, isPySpace c = true → p c = false)
    (l : List Char) : (pyStrip l).filter p = l.filter p := by
  unfold pyStrip
  rw [List.filter_reverse, filter_dropWhile_eq h, List.filter_reverse, List.reverse_reverse,
    filter_dropWhile_eq h]

theorem filter_hex_map_upper (l : List Char) :
    (l.map upperChar).filter isHexChar = (l.filter isHexChar).map upperChar := by
  induction l with
  | nil => rfl
  | cons c cs ih =>
    simp only [List.map_cons, List.filter_cons, isHexChar_upperChar]
    by_cases hc : isHexChar c = true
    · simp [hc, ih]
    · simp [Bool.not_eq_true] at hc
      simp [hc, ih]

theorem map_upper_idem (l : List Char) :
    (l.map upperChar).map upperChar = l.map upperChar := by
  rw [List.map_map]
  exact List.map_congr_left fun c _ => upperChar_upperChar c

/-- The hex-character run of a string, uppercased: the claim-level
normal form that `validate_crc32` produces in repair mode. -/
def hexRunUp (s : List Char) : List Char := (s.filter isHexChar).map upperChar

theorem all_upperHex_hexRunUp (s : List Char) : (hexRunUp s).all isUpperHexChar = true := by
  rw [hexRunUp, List.all_eq_true]
  intro c hc
  rw [List.mem_map] at hc
  obtain ⟨d, hd, rfl⟩ := hc
  exact isUpperHexChar_upperChar_of_isHexChar (List.of_mem_filter hd)

/-- In repair mode the `hex_only` computed inside `validate_crc32`
equals `hexRunUp` of the raw input. -/
theorem crc_hex_only_eq (s : List Char) :
    (((pyStrip s).map upperChar).filter isHexChar).map upperChar = hexRunUp s := by
  rw [filter_hex_map_upper, map_upper_idem,
    filter_pyStrip (fun c hc => isPySpace_not_hex hc), hexRunUp]

theorem length_zfill (n : Nat) (l : List Char) : (zfill n l).length = max n l.length := by
  simp [zfill]
  omega

theorem all_zfill_upperHex {l : List Char} (h : l.all isUpperHexChar = true) (n : Nat) :
    (zfill n l).all isUpperHexChar = true := by
  simp only [zfill, List.all_append, h, Bool.and_true]
  simp [List.all_eq_true]
  exact Or.inr (by decide)

theorem upperHex_imp_hex {c : Char} (h : isUpperHexChar c = true) : isHexChar c = true := by
  simp only [isUpperHexChar, decide_eq_true_eq] at h
  simp only [isHexChar, decide_eq_true_eq]
  omega

/-- Core facts about `validate_crc32` in repair mode: the returned
value is always 8 uppercase hex characters, and it is determined by
the hex run of the input exactly as the spec's normalization law
states. -/
theorem crc_repair_main (s : List Char) (ln : Nat) :
    ((validate_crc32 s ln true).1.length = 8 ∧
     (validate_crc32 s ln true).1.all isUpperHexChar = true) ∧
    ((s.filter isHexChar).length = 0 → (validate_crc32 s ln true).1 = S "00000000") ∧
    (0 < (s.filter isHexChar).length → (s.filter isHexChar).length < 8 →
      (validate_crc32 s ln true).1 = zfill 8 (hexRunUp s)) ∧
    (8 < (s.filter isHexChar).length → (validate_crc32 s ln true).1 = (hexRunUp s).take 8) := by
  have hho : (((pyStrip s).map upperChar).filter isHexChar).map upperChar = hexRunUp s :=
    crc_hex_only_eq s
  have hlen : ((((pyStrip s).map upperChar).filter isHexChar).map upperChar).length
      = (s.filter isHexChar).length := by
    rw [hho]
    simp only [hexRunUp, List.length_map]
  unfold validate_crc32
  simp only [if_true, hho]
  simp only [hexRunUp, List.length_map] at hlen
  by_cases hv : (decide (((pyStrip s).map upperChar).length = 8) &&
      ((pyStrip s).map upperChar).all isUpperHexChar) = true
  · rw [if_pos hv]
    rw [Bool.and_eq_true, decide_eq_true_eq] at hv
    obtain ⟨h8, hall⟩ := hv
    have hfil : ((pyStrip s).map upperChar).filter isHexChar = (pyStrip s).map upperChar :=
      List.filter_eq_self.mpr fun a ha => upperHex_imp_hex (List.all_eq_true.mp hall a ha)
    have hn8 : (s.filter isHexChar).length = 8 := by
      rw [← hlen, hfil, h8]
    refine ⟨⟨h8, hall⟩, ?_, ?_, ?_⟩ <;> intros <;> omega
  · rw [if_neg hv]
    have hlu : (hexRunUp s).length = (s.filter isHexChar).length := by
      simp only [hexRunUp, List.length_map]
    by_cases h1 : (hexRunUp s).length = 8
    · rw [if_pos h1]
      refine ⟨⟨h1, all_upperHex_hexRunUp s⟩, ?_, ?_, ?_⟩ <;> intros <;> omega
    · rw [if_neg h1]
      by_cases h2 : 8 < (hexRunUp s).length
      · rw [if_pos h2]
        refine ⟨⟨?_, ?_⟩, ?_, ?_, ?_⟩
        · rw [List.length_take]
          omega
        · rw [List.all_eq_true]
          intro c hc
          exact List.all_eq_true.mp (all_upperHex_hexRunUp s) c (List.mem_of_mem_take hc)
        all_goals (intros; first | rfl | omega)
      · rw [if_neg h2]
        by_cases h3 : 0 < (hexRunUp s).length
        · rw [if_pos h3]
          refine ⟨⟨?_, all_zfill_upperHex (all_upperHex_hexRunUp s) 8⟩, ?_, ?_, ?_⟩
          · rw [length_zfill]
            omega
          · intro h
            omega
          · intros
            rfl
          · intros
            omega
        · rw [if_neg h3]
          refine ⟨⟨rfl, rfl⟩, fun _ => rfl, ?_, ?_⟩ <;> intros <;> omega

theorem rowOut_length (cfg : Config) (fields : List (List Char)) (ln : Nat) :
    ((rowOut cfg fields ln).1).length = 5 := rfl

/-- The loop invariant of the row loop: before the first counted line
no row has been emitted, and every emitted row has 5 fields except
possibly a detected header row in position 0. -/
def pipeInv (st : PipeState) : Prop :=
  (st.lineNum = 0 → st.rows = []) ∧
  ∀ i (hi : i < st.rows.length),
    (st.rows[i]).length = 5 ∨ (st.headerDetected = true ∧ i = 0)

theorem processLine_inv (cfg : Config) (st : PipeState) (raw : List Char) (h : pipeInv st) :
    pipeInv (processLine cfg st raw) := by
  simp only [processLine]
  split
  · exact h
  · split
    · refine ⟨fun hln => ?_, fun i hi => h.2 i hi⟩
      simp only at hln
      omega
    · split
      · next hhdr =>
        have hz : st.lineNum = 0 := by omega
        have hrows : st.rows = [] := h.1 hz
        refine ⟨fun hln => ?_, fun i hi => ?_⟩
        · simp only at hln
          omega
        · right
          refine ⟨rfl, ?_⟩
          simp only [hrows, List.nil_append, List.length_cons, List.length_nil] at hi
          omega
      · refine ⟨fun hln => ?_, fun i hi => ?_⟩
        · simp only at hln
          omega
        · dsimp only at hi ⊢
          simp only [List.length_append, List.length_cons, List.length_nil] at hi
          by_cases hlt : i < st.rows.length
          · rcases h.2 i hlt with h5 | ⟨hh, hi0⟩
            · left
              rw [List.getElem_append_left hlt]
              exact h5
            · right
              exact ⟨hh, hi0⟩
          · left
            have hieq : i = st.rows.length := by omega
            subst hieq
            simp [List.getElem_concat_length, rowOut_length]

theorem foldl_pipeInv (cfg : Config) (lines : List (List Char)) :
    ∀ st, pipeInv st → pipeInv (lines.foldl (processLine cfg) st) := by
  induction lines with
  | nil => exact fun st h => h
  | cons l ls ih => exact fun st h => ih _ (processLine_inv cfg st l h)

theorem processLines_inv (cfg : Config) (lines : List (List Char)) :
    pipeInv (processLines cfg lines) :=
  foldl_pipeInv cfg lines initState ⟨fun _ => rfl, fun i hi => by simp [initState] at hi⟩

/-- C1.  The claim states that every field validator in
validation-only mode (`repair=False`) returns the original input
value unchanged, in particular for every FileName value including the
empty string.  The code violates this (and its own header comment,
lines 20-22, which promises that validation-only mode "does not
modify field values"): `validate_filename` returns the sentinel
`MISSING_FILENAME.jpg` for an empty filename before ever consulting
the `repair` flag (lines 240-242).  This theorem evaluates the code
at the failing input. -/
theorem c1_empty_filename_not_preserved :
    (validate_filename (S "") 1 false).1 = S "MISSING_FILENAME.jpg" ∧
    (validate_filename (S "") 1 false).2 =
      [⟨1, 1, S "FileName", S "Empty filename", S "", none⟩] ∧
    (validate_filename (S "") 1 false).1 ≠ S "" := by decide

/-- C2 (counterexample).  The claim says every row appended to the
output row list, including a detected header row, has exactly 5
fields.  A 3-field header row `filename,size,crc32` is appended
verbatim with 3 fields (line 607 appends `fields` unchanged). -/
theorem c2_header_row_three_fields :
    (processLines ⟨false, false, false⟩ [S "filename,size,crc32"]).rows =
      [[S "filename", S "size", S "crc32"]] ∧
    ((processLines ⟨false, false, false⟩ [S "filename,size,crc32"]).rows.getD 0 []).length = 3 ∧
    (3 : Nat) ≠ 5 := by decide

/-- C2 (amended).  Every row appended to the pipeline's output row
list has exactly 5 fields, regardless of how many raw tokens the
input line parsed into, except a detected header row, which is
appended verbatim and can only sit at index 0. -/
theorem c2_field_count_invariant (cfg : Config) (lines : List (List Char))
    (i : Nat) (hi : i < (processLines cfg lines).rows.length) :
    ((processLines cfg lines).rows.getD i []).length = 5 ∨
    ((processLines cfg lines).headerDetected = true ∧ i = 0) := by
  have h := (processLines_inv cfg lines).2 i hi
  rwa [List.getD_eq_getElem _ _ hi]

theorem c2_field_count_invariant_witness :
    0 < (processLines ⟨false, false, false⟩ [S "a,1,AA,p"]).rows.length ∧
    (((processLines ⟨false, false, false⟩ [S "a,1,AA,p"]).rows.getD 0 []).length = 5 ∨
      ((processLines ⟨false, false, false⟩ [S "a,1,AA,p"]).headerDetected = true ∧ 0 = 0)) :=
  ⟨by decide, c2_field_count_invariant ⟨false, false, false⟩ [S "a,1,AA,p"] 0 (by decide)⟩

/-- C3.  The checksum validator called with `repair=true` always
returns 8 uppercase hex characters; with fewer than 8 but at least 1
hex character in the input the result is the hex run uppercased and
left-zero-padded to 8; with more than 8 the result is the first 8 hex
characters uppercased; with none it is `"00000000"`. -/
theorem c3_checksum_normalization_law (s : List Char) (ln : Nat) :
    ((validate_crc32 s ln true).1.length = 8 ∧
     (validate_crc32 s ln true).1.all isUpperHexChar = true) ∧
    (0 < (s.filter isHexChar).length → (s.filter isHexChar).length < 8 →
      (validate_crc32 s ln true).1 = zfill 8 ((s.filter isHexChar).map upperChar)) ∧
    (8 < (s.filter isHexChar).length →
      (validate_crc32 s ln true).1 = ((s.filter isHexChar).take 8).map upperChar) ∧
    ((s.filter isHexChar).length = 0 → (validate_crc32 s ln true).1 = S "00000000") := by
  obtain ⟨hshape, hzero, hpad, htrunc⟩ := crc_repair_main s ln
  refine ⟨hshape, fun h1 h2 => ?_, fun h => ?_, hzero⟩
  · rw [hpad h1 h2, hexRunUp]
  · rw [htrunc h, hexRunUp, List.map_take]

theorem c3_checksum_normalization_law_witness :
    (0 < ((S "x1a!").filter isHexChar).length ∧ ((S "x1a!").filter isHexChar).length < 8) ∧
    (validate_crc32 (S "x1a!") 1 true).1 =
      zfill 8 (((S "x1a!").filter isHexChar).map upperChar) :=
  ⟨by decide, (c3_checksum_normalization_law (S "x1a!") 1).2.1 (by decide) (by decide)⟩

/-- C6.  The exact line
`file.pdf,12345,ABCDEF12,\Some\Path\With\Comma\,Comment text`
parses to exactly 5 fields, with the Path field ending in exactly one
backslash and the Comment field equal to `Comment text`. -/
theorem c6_escaped_path_boundary :
    (parse_csv_line_with_quotes
        (S "file.pdf,12345,ABCDEF12,\\Some\\Path\\With\\Comma\\,Comment text") 1).1 =
      [S "file.pdf", S "12345", S "ABCDEF12", S "\\Some\\Path\\With\\Comma\\",
        S "Comment text"] ∧
    (parse_csv_line_with_quotes
        (S "file.pdf,12345,ABCDEF12,\\Some\\Path\\With\\Comma\\,Comment text") 1).1.length = 5 ∧
    (S "\\Some\\Path\\With\\Comma\\").getLast? = some '\\' ∧
    (S "\\Some\\Path\\With\\Comma\\").dropLast.getLast? = some 'a' := by decide

theorem validate_size_false_val (s : List Char) (ln : Nat) : (validate_size s ln false).1 = s := by
  unfold validate_size
  simp only [Bool.false_eq_true, if_false]
  split
  · rfl
  · split <;> rfl

theorem validate_path_false_val (s : List Char) (ln : Nat) : (validate_path s ln false).1 = s := by
  unfold validate_path
  simp only [Bool.false_eq_true, if_false, false_and]
  split
  · rfl
  · rfl

theorem validate_filename_false_val (s : List Char) (ln : Nat) (h : pyStrip s ≠ []) :
    (validate_filename s ln false).1 = s := by
  unfold validate_filename
  simp only [Bool.false_eq_true, if_false, false_and]
  rw [if_neg]
  · split
    · rfl
    · rfl
  · rintro (rfl | hs)
    · exact h rfl
    · exact h hs

theorem validate_crc32_false_val (s : List Char) (ln : Nat) :
    (validate_crc32 s ln false).1 = s ∨ (validate_crc32 s ln false).1 = pyStrip s := by
  unfold validate_crc32
  simp only [Bool.false_eq_true, if_false]
  split
  · exact Or.inr rfl
  · split
    · exact Or.inl rfl
    · split
      · exact Or.inl rfl
      · split <;> exact Or.inl rfl

/-- C7.  The exact line `a.jpg,10,ABCDEF12,\path\,note, with comma`
is processed into a row whose Comment field is `note, with comma`;
in general all parsed fields beyond index 3 are rejoined with commas
(and trimmed by `validate_comment`) into the single Comment field. -/
theorem c7_comment_recombination :
    ((processLines ⟨false, false, false⟩
        [S "a.jpg,10,ABCDEF12,\\path\\,note, with comma"]).rows =
      [[S "a.jpg", S "10", S "ABCDEF12", S "\\path\\", S "note, with comma"]]) ∧
    (∀ (cfg : Config) (fields : List (List Char)) (ln : Nat), 5 ≤ fields.length →
      ((rowOut cfg fields ln).1).getD 4 [] =
        pyStrip (List.intercalate [','] (fields.drop 4))) := by
  refine ⟨by decide, fun cfg fields ln h => ?_⟩
  simp only [rowOut, List.getD_cons_succ, List.getD_cons_zero]
  rw [if_pos h]
  rfl

theorem c7_comment_recombination_witness :
    (5 ≤ ([S "a", S "1", S "AA", S "p", S "x", S " y"] : List (List Char)).length) ∧
    ((rowOut ⟨false, false, false⟩ [S "a", S "1", S "AA", S "p", S "x", S " y"] 1).1).getD 4 [] =
      pyStrip (List.intercalate [','] (([S "a", S "1", S "AA", S "p", S "x", S " y"] :
        List (List Char)).drop 4)) :=
  ⟨by decide,
    c7_comment_recombination.2 ⟨false, false, false⟩ [S "a", S "1", S "AA", S "p", S "x", S " y"] 1
      (by decide)⟩

/-- C8 (counterexample).  The claim says that in normalize-only mode
the Checksum field is repaired regardless of the global repair flag.
With `normalize_only=True` but `normalize_crc32=False` and
`repair=False`, the per-field flag `crc_repair = normalize_crc32 or
repair` (line 623) is `False`, so the checksum `abc` is emitted
unchanged instead of the normalized `00000ABC`. -/
theorem c8_normalize_only_counterexample :
    (processLines ⟨false, false, true⟩ [S "a.jpg,10,abc,p,c"]).rows =
      [[S "a.jpg", S "10", S "abc", S "p", S "c"]] ∧
    (validate_crc32 (S "abc") 1 true).1 = S "00000ABC" ∧
    S "abc" ≠ S "00000ABC" := by decide

/-- C8 (amended).  When normalize-only mode is enabled the FileName,
Size and Path validators run with repair disabled, so Size and Path
are emitted with their original values, FileName too unless it is
blank (the empty-filename sentinel still fires), and Comment is the
trimmed comma-rejoin of fields 4+.  The Checksum field is repaired
(normalized to 8 uppercase hex) iff the normalize-checksum flag or
the global repair flag is set; otherwise it is emitted unchanged up
to whitespace-stripping of an already-valid checksum. -/
theorem c8_normalize_only_frame (cfg : Config) (h : cfg.normalize_only = true)
    (fields : List (List Char)) (ln : Nat) :
    (((rowOut cfg fields ln).1).getD 1 [] = fields.getD 1 []) ∧
    (((rowOut cfg fields ln).1).getD 3 [] = fields.getD 3 []) ∧
    (pyStrip (fields.getD 0 []) ≠ [] →
      ((rowOut cfg fields ln).1).getD 0 [] = fields.getD 0 []) ∧
    (((rowOut cfg fields ln).1).getD 4 [] =
      if 5 ≤ fields.length then pyStrip (List.intercalate [','] (fields.drop 4)) else []) ∧
    ((cfg.normalize_crc32 = true ∨ cfg.repair = true) →
      (((rowOut cfg fields ln).1).getD 2 []).length = 8 ∧
      (((rowOut cfg fields ln).1).getD 2 []).all isUpperHexChar = true) ∧
    (cfg.normalize_crc32 = false → cfg.repair = false →
      (((rowOut cfg fields ln).1).getD 2 [] = fields.getD 2 [] ∨
       ((rowOut cfg fields ln).1).getD 2 [] = pyStrip (fields.getD 2 []))) := by
  have hflag : (cfg.repair && !cfg.normalize_only) = false := by
    rw [h]
    simp
  simp only [rowOut, hflag, List.getD_cons_succ, List.getD_cons_zero]
  refine ⟨validate_size_false_val _ _, validate_path_false_val _ _,
    fun hne => validate_filename_false_val _ _ hne, ?_, fun hcrc => ?_, fun hc hr => ?_⟩
  · split
    · rfl
    · rfl
  · have : (cfg.normalize_crc32 || cfg.repair) = true := by
      rcases hcrc with h1 | h1 <;> simp [h1]
    rw [this]
    exact (crc_repair_main (fields.getD 2 []) ln).1
  · have : (cfg.normalize_crc32 || cfg.repair) = false := by simp [hc, hr]
    rw [this]
    exact validate_crc32_false_val _ _

theorem c8_normalize_only_frame_witness :
    ((⟨false, true, true⟩ : Config).normalize_only = true) ∧
    (((rowOut ⟨false, true, true⟩ [S "a", S "7", S "1a", S "p", S "c"] 1).1).getD 1 [] = S "7") ∧
    (((rowOut ⟨false, true, true⟩ [S "a", S "7", S "1a", S "p", S "c"] 1).1).getD 2 []).length = 8 := by
  refine ⟨rfl, ?_, ?_⟩
  · exact (c8_normalize_only_frame ⟨false, true, true⟩ rfl [S "a", S "7", S "1a", S "p", S "c"] 1).1
  · exact ((c8_normalize_only_frame ⟨false, true, true⟩ rfl [S "a", S "7", S "1a", S "p", S "c"] 1).2.2.2.2.1
      (Or.inl rfl)).1

theorem validate_filename_issues_field (s : List Char) (ln : Nat) (r : Bool) :
    ∀ iss ∈ (validate_filename s ln r).2, iss.field_num = 1 := by
  intro iss hiss
  unfold validate_filename at hiss
  repeat' split at hiss
  all_goals (try simp_all)
  all_goals (repeat' split at hiss)
  all_goals (try simp_all)
  all_goals (rcases hiss with rfl | ⟨-, rfl⟩ <;> rfl)

theorem validate_size_issues_field (s : List Char) (ln : Nat) (r : Bool) :
    ∀ iss ∈ (validate_size s ln r).2, iss.field_num = 2 := by
  intro iss hiss
  unfold validate_size at hiss
  simp only [apply_ite Prod.snd] at hiss
  repeat' split at hiss
  all_goals simp_all

theorem validate_crc32_issues_field (s : List Char) (ln : Nat) (r : Bool) :
    ∀ iss ∈ (validate_crc32 s ln r).2, iss.field_num = 3 := by
  intro iss hiss
  unfold validate_crc32 at hiss
  simp only [apply_ite Prod.snd] at hiss
  repeat' split at hiss
  all_goals simp_all

theorem validate_path_issues_field (s : List Char) (ln : Nat) (r : Bool) :
    ∀ iss ∈ (validate_path s ln r).2, iss.field_num = 4 := by
  intro iss hiss
  unfold validate_path at hiss
  repeat' split at hiss
  all_goals (try simp_all)
  all_goals (repeat' split at hiss)
  all_goals (try simp_all)
  all_goals (rcases hiss with rfl | ⟨-, rfl⟩ <;> rfl)

/-- C9 (counterexample).  The claim says each FileName/Size defect is
recorded twice (identical entries).  With `repair=True` and
`normalize_only=True` the two `validate_filename` invocations run
with different repair flags (lines 616 vs 625): for the filename
` a` the first invocation records a whitespace-trim issue and the
second records nothing, so the defect appears once, not twice. -/
theorem c9_counterexample :
    (processLines ⟨true, false, true⟩ [S " a,5,AAAAAAAA,p"]).issues =
      [⟨1, 1, S "FileName", S "Whitespace trimmed or characters replaced", S " a", some (S "a")⟩] ∧
    ((processLines ⟨true, false, true⟩ [S " a,5,AAAAAAAA,p"]).issues.countP
      (fun iss => iss.field_num == 1) = 1) ∧
    (1 : Nat) ≠ 2 := by decide

/-- C9 (amended).  For every data row the FileName and Size
validators are invoked twice; unless both the repair flag and
normalize-only mode are set, the two invocations run with the same
repair flag, so the issues they append appear as two identical
blocks, and the number of FileName (resp. Size) issue entries of the
row is exactly twice the number a single invocation detects. -/
theorem c9_double_validation (cfg : Config)
    (h : ¬(cfg.repair = true ∧ cfg.normalize_only = true))
    (fields : List (List Char)) (ln : Nat) :
    ((rowOut cfg fields ln).2 =
      (validate_filename (fields.getD 0 []) ln cfg.repair).2 ++
      (validate_size (fields.getD 1 []) ln cfg.repair).2 ++
      (validate_filename (fields.getD 0 []) ln cfg.repair).2 ++
      (validate_size (fields.getD 1 []) ln cfg.repair).2 ++
      (validate_crc32 (fields.getD 2 []) ln (cfg.normalize_crc32 || cfg.repair)).2 ++
      (validate_path (fields.getD 3 []) ln cfg.repair).2) ∧
    ((rowOut cfg fields ln).2.countP (fun iss => iss.field_num == 1) =
      2 * (validate_filename (fields.getD 0 []) ln cfg.repair).2.length) ∧
    ((rowOut cfg fields ln).2.countP (fun iss => iss.field_num == 2) =
      2 * (validate_size (fields.getD 1 []) ln cfg.repair).2.length) := by
  have hflag : (cfg.repair && !cfg.normalize_only) = cfg.repair := by
    rcases hr : cfg.repair with _ | _
    · simp
    · rcases hn : cfg.normalize_only with _ | _
      · simp
      · exact absurd ⟨hr, hn⟩ h
  have hmain : (rowOut cfg fields ln).2 =
      (validate_filename (fields.getD 0 []) ln cfg.repair).2 ++
      (validate_size (fields.getD 1 []) ln cfg.repair).2 ++
      (validate_filename (fields.getD 0 []) ln cfg.repair).2 ++
      (validate_size (fields.getD 1 []) ln cfg.repair).2 ++
      (validate_crc32 (fields.getD 2 []) ln (cfg.normalize_crc32 || cfg.repair)).2 ++
      (validate_path (fields.getD 3 []) ln cfg.repair).2 := by
    simp only [rowOut, hflag]
  refine ⟨hmain, ?_, ?_⟩
  · rw [hmain]
    simp only [List.countP_append]
    have h1 : (validate_filename (fields.getD 0 []) ln cfg.repair).2.countP
        (fun iss => iss.field_num == 1) =
        (validate_filename (fields.getD 0 []) ln cfg.repair).2.length :=
      List.countP_eq_length.mpr fun iss hiss => by
        simp [validate_filename_issues_field _ _ _ iss hiss]
    have h2 : (validate_size (fields.getD 1 []) ln cfg.repair).2.countP
        (fun iss => iss.field_num == 1) = 0 :=
      List.countP_eq_zero.mpr fun iss hiss => by
        simp [validate_size_issues_field _ _ _ iss hiss]
    have h3 : (validate_crc32 (fields.getD 2 []) ln (cfg.normalize_crc32 || cfg.repair)).2.countP
        (fun iss => iss.field_num == 1) = 0 :=
      List.countP_eq_zero.mpr fun iss hiss => by
        simp [validate_crc32_issues_field _ _ _ iss hiss]
    have h4 : (validate_path (fields.getD 3 []) ln cfg.repair).2.countP
        (fun iss => iss.field_num == 1) = 0 :=
      List.countP_eq_zero.mpr fun iss hiss => by
        simp [validate_path_issues_field _ _ _ iss hiss]
    rw [h1, h2, h3, h4]
    omega
  · rw [hmain]
    simp only [List.countP_append]
    have h1 : (validate_size (fields.getD 1 []) ln cfg.repair).2.countP
        (fun iss => iss.field_num == 2) =
        (validate_size (fields.getD 1 []) ln cfg.repair).2.length :=
      List.countP_eq_length.mpr fun iss hiss => by
        simp [validate_size_issues_field _ _ _ iss hiss]
    have h2 : (validate_filename (fields.getD 0 []) ln cfg.repair).2.countP
        (fun iss => iss.field_num == 2) = 0 :=
      List.countP_eq_zero.mpr fun iss hiss => by
        simp [validate_filename_issues_field _ _ _ iss hiss]
    have h3 : (validate_crc32 (fields.getD 2 []) ln (cfg.normalize_crc32 || cfg.repair)).2.countP
        (fun iss => iss.field_num == 2) = 0 :=
      List.countP_eq_zero.mpr fun iss hiss => by
        simp [validate_crc32_issues_field _ _ _ iss hiss]
    have h4 : (validate_path (fields.getD 3 []) ln cfg.repair).2.countP
        (fun iss => iss.field_num == 2) = 0 :=
      List.countP_eq_zero.mpr fun iss hiss => by
        simp [validate_path_issues_field _ _ _ iss hiss]
    rw [h1, h2, h3, h4]
    omega

theorem c9_double_validation_witness :
    (¬((⟨true, false, false⟩ : Config).repair = true ∧
       (⟨true, false, false⟩ : Config).normalize_only = true)) ∧
    ((rowOut ⟨true, false, false⟩ [S " a", S "5", S "AA", S "p"] 1).2.countP
      (fun iss => iss.field_num == 1) = 2) := by
  refine ⟨by decide, ?_⟩
  have h := (c9_double_validation ⟨true, false, false⟩ (by decide)
    [S " a", S "5", S "AA", S "p"] 1).2.1
  rw [h]
  decide

theorem isLeadOf_append (pat rest : List Char) : isLeadOf pat (pat ++ rest) = true := by
  induction pat with
  | nil => rfl
  | cons c cs ih => simp [isLeadOf, ih]

theorem csvGo_ok_ne_nil : ∀ (l : List Char) (st : CsvSt) (fields : List (List Char))
    (cur : List Char), (st = CsvSt.eatCRNL → fields ≠ []) →
    ∀ fs, csvGo st fields cur l = .ok fs → fs ≠ [] := by
  intro l
  induction l with
  | nil =>
    intro st fields cur hinv fs hok
    cases st <;> simp only [csvGo] at hok <;>
      first
      | exact Except.noConfusion hok
      | (injection hok with h
         subst h
         first
         | exact hinv rfl
         | simp)
  | cons c rest ih =>
    intro st fields cur hinv fs hok
    cases st <;> simp only [csvGo] at hok <;> (repeat' split at hok) <;>
      first
      | exact Except.noConfusion hok
      | (injection hok with h
         subst h
         first
         | exact hinv rfl
         | simp)
      | exact ih _ _ _ (fun _ => hinv rfl) fs hok
      | exact ih _ _ _ (by simp) fs hok

theorem fallbackGo_ne_nil : ∀ (parts : List (List Char)) (acc : List (List Char))
    (cur : List Char), fallbackGo acc cur parts ≠ [] := by
  intro parts
  induction parts with
  | nil => intro acc cur; simp [fallbackGo]
  | cons p ps ih =>
    intro acc cur
    simp only [fallbackGo]
    split
    · exact ih _ _
    · exact ih _ _

theorem fallbackJoin_ne_nil (parts : List (List Char)) : fallbackJoin parts ≠ [] := by
  cases parts with
  | nil => simp [fallbackJoin]
  | cons p ps => exact fallbackGo_ne_nil ps [] p

theorem restoreRegions_ne_nil (reg : Option (List Char)) (fields : List (List Char))
    (h : fields ≠ []) : restoreRegions reg fields ≠ [] := by
  cases reg with
  | none => exact h
  | some r =>
    simp only [restoreRegions]
    simpa using h

theorem applySpecialCase_ne_nil (line : List Char) (fs : List (List Char)) (h : fs ≠ []) :
    applySpecialCase line fs ≠ [] := by
  simp only [applySpecialCase]
  split
  · split
    · exact h
    · simp
  · exact h

theorem map_ne_nil_of_ne_nil {f : List Char → List Char} {fs : List (List Char)}
    (h : fs ≠ []) : fs.map f ≠ [] := by simpa using h

/-- C4.  The line parser is total: it always returns a non-empty list
of fields.  When the strict RFC-4180 parse of the (placeholder-masked)
line succeeds it appends no issue; when the strict parse raises, it
appends exactly one issue of kind `CSV parsing error` tagged at field
0 for that line, and the fields are produced by the best-effort comma
split with backslash rejoin (followed by the shared restoration
steps). -/
theorem c4_parser_never_throws (line : List Char) (ln : Nat) :
    ((parse_csv_line_with_quotes line ln).1 ≠ []) ∧
    (∀ fs, csvParse (maskRegion (stripCRLF line)).1 = .ok fs →
      (parse_csv_line_with_quotes line ln).2 = []) ∧
    (∀ msg, csvParse (maskRegion (stripCRLF line)).1 = .error msg →
      ((parse_csv_line_with_quotes line ln).2 =
        [⟨ln, 0, S "Row", S "CSV parsing error: " ++ msg, stripCRLF line, none⟩]) ∧
      isLeadOf (S "CSV parsing error") (S "CSV parsing error: " ++ msg) = true ∧
      (parse_csv_line_with_quotes line ln).1 =
        applySpecialCase (stripCRLF line)
          (((restoreRegions (maskRegion (stripCRLF line)).2
              (fallbackJoin (splitChar ',' (maskRegion (stripCRLF line)).1))).map
            collapseBC).map unquoteIfQuoted)) := by
  simp only [parse_csv_line_with_quotes]
  rcases hc : csvParse (maskRegion (stripCRLF line)).1 with msg | fs
  · refine ⟨?_, ?_, ?_⟩
    · exact applySpecialCase_ne_nil _ _ (map_ne_nil_of_ne_nil (map_ne_nil_of_ne_nil
        (restoreRegions_ne_nil _ _ (fallbackJoin_ne_nil _))))
    · intro fs0 hok
      exact Except.noConfusion hok
    · intro m hm
      injection hm with h
      subst h
      exact ⟨rfl, isLeadOf_append (S "CSV parsing error") (S ": " ++ msg), rfl⟩
  · refine ⟨?_, fun fs0 _ => rfl, fun m hm => Except.noConfusion hm⟩
    exact applySpecialCase_ne_nil _ _ (map_ne_nil_of_ne_nil (map_ne_nil_of_ne_nil
      (restoreRegions_ne_nil _ _
        (csvGo_ok_ne_nil (maskRegion (stripCRLF line)).1 .startRecord [] [] (by simp) fs hc))))

theorem c4_parser_never_throws_witness :
    (csvParse (maskRegion (stripCRLF (S "a\rb,c"))).1 = .error newlineErrMsg) ∧
    (parse_csv_line_with_quotes (S "a\rb,c") 2).2 =
      [⟨2, 0, S "Row", S "CSV parsing error: " ++ newlineErrMsg, S "a\rb,c", none⟩] :=
  ⟨by decide, ((c4_parser_never_throws (S "a\rb,c") 2).2.2 newlineErrMsg (by decide)).1⟩

/-- The duplicate key of one enumerated row, `none` when the row is
the skipped header or its checksum has no hex characters. -/
def pairKey (hd : Bool) (lineNums : List Nat) (p : Nat × List (List Char)) :
    Option (List Char) :=
  if isHeaderIdx hd lineNums p.1 then none else dupKey p.2

/-- First-match lookup in the insertion-ordered map ([] when absent). -/
def lookupG : List (List Char × List Nat) → List Char → List Nat
  | [], _ => []
  | (k', g) :: rest, k => if k' = k then g else lookupG rest k

theorem lookupG_addKey_self (m : List (List Char × List Nat)) (k : List Char) (i : Nat) :
    lookupG (addKey m k i) k = lookupG m k ++ [i] := by
  induction m with
  | nil => simp [addKey, lookupG]
  | cons kg rest ih =>
    obtain ⟨k', g⟩ := kg
    by_cases hk : k' = k
    · simp [addKey, hk, lookupG]
    · simp [addKey, hk, lookupG, ih]

theorem lookupG_addKey_other (m : List (List Char × List Nat)) (k k' : List Char) (i : Nat)
    (h : k' ≠ k) : lookupG (addKey m k i) k' = lookupG m k' := by
  induction m with
  | nil =>
    simp only [addKey, lookupG]
    rw [if_neg (fun he => h he.symm)]
  | cons kg rest ih =>
    obtain ⟨k0, g⟩ := kg
    simp only [addKey]
    by_cases hk : k0 = k
    · rw [if_pos hk]
      subst hk
      simp only [lookupG]
      rw [if_neg (fun he => h he.symm), if_neg (fun he => h he.symm)]
    · rw [if_neg hk]
      simp only [lookupG]
      by_cases hk' : k0 = k'
      · rw [if_pos hk', if_pos hk']
      · rw [if_neg hk', if_neg hk', ih]

theorem keys_addKey (m : List (List Char × List Nat)) (k : List Char) (i : Nat) :
    (addKey m k i).map Prod.fst =
      if k ∈ m.map Prod.fst then m.map Prod.fst else m.map Prod.fst ++ [k] := by
  induction m with
  | nil => simp [addKey]
  | cons kg rest ih =>
    obtain ⟨k0, g⟩ := kg
    by_cases hk : k0 = k
    · subst hk
      simp [addKey]
    · have hne : ¬(k = k0) := fun he => hk he.symm
      simp only [addKey, if_neg hk, List.map_cons, List.mem_cons]
      rw [ih]
      by_cases hmem : k ∈ rest.map Prod.fst
      · rw [if_pos hmem, if_pos (Or.inr hmem)]
      · have hnor : ¬(k = k0 ∨ k ∈ rest.map Prod.fst) := by
          rintro (he | hm)
          · exact hne he
          · exact hmem hm
        rw [if_neg hmem, if_neg hnor]
        simp

theorem keys_addKey_nodup {m : List (List Char × List Nat)} (k : List Char) (i : Nat)
    (h : (m.map Prod.fst).Nodup) : ((addKey m k i).map Prod.fst).Nodup := by
  rw [keys_addKey]
  split
  · exact h
  · next hmem =>
    rw [List.nodup_append]
    refine ⟨h, List.nodup_singleton k, ?_⟩
    intro a ha hb
    simp only [List.mem_singleton] at hb
    subst hb
    exact hmem ha

theorem lookupG_crcMapAux (hd : Bool) (lineNums : List Nat) :
    ∀ (pairs : List (Nat × List (List Char))) (m : List (List Char × List Nat)) (k : List Char),
    lookupG (crcMapAux hd lineNums m pairs) k =
      lookupG m k ++
        ((pairs.filter (fun p => pairKey hd lineNums p = some k)).map Prod.fst) := by
  intro pairs
  induction pairs with
  | nil => intro m k; simp [crcMapAux]
  | cons p rest ih =>
    intro m k
    obtain ⟨idx, row⟩ := p
    simp only [crcMapAux]
    split
    · next hhdr =>
      rw [ih]
      have : pairKey hd lineNums (idx, row) = none := by simp [pairKey, hhdr]
      rw [List.filter_cons_of_neg (by simp [this])]
    · next hhdr =>
      have hh : isHeaderIdx hd lineNums idx = false := by
        revert hhdr
        cases isHeaderIdx hd lineNums idx <;> simp
      rcases hdk : dupKey row with _ | k0
      · rw [ih]
        have : pairKey hd lineNums (idx, row) = none := by simp [pairKey, hh, hdk]
        rw [List.filter_cons_of_neg (by simp [this])]
      · rw [ih]
        have hpk : pairKey hd lineNums (idx, row) = some k0 := by simp [pairKey, hh, hdk]
        by_cases hk : k0 = k
        · subst hk
          rw [List.filter_cons_of_pos (by simp [hpk]), lookupG_addKey_self]
          simp
        · rw [List.filter_cons_of_neg (by simp [hpk, hk]),
            lookupG_addKey_other _ _ _ _ (fun he => hk he.symm)]

theorem keys_crcMapAux_nodup (hd : Bool) (lineNums : List Nat) :
    ∀ (pairs : List (Nat × List (List Char))) (m : List (List Char × List Nat)),
    (m.map Prod.fst).Nodup → ((crcMapAux hd lineNums m pairs).map Prod.fst).Nodup := by
  intro pairs
  induction pairs with
  | nil => intro m h; exact h
  | cons p rest ih =>
    intro m h
    obtain ⟨idx, row⟩ := p
    simp only [crcMapAux]
    split
    · exact ih m h
    · rcases dupKey row with _ | k0
      · exact ih m h
      · exact ih _ (keys_addKey_nodup k0 idx h)

theorem mem_pyEnum : ∀ (l : List α) (n : Nat) (p : Nat × α),
    p ∈ pyEnum n l ↔ (n ≤ p.1 ∧ l.get? (p.1 - n) = some p.2) := by
  intro l
  induction l with
  | nil => intro n p; simp [pyEnum]
  | cons a as ih =>
    intro n p
    obtain ⟨i, x⟩ := p
    simp only [pyEnum, List.mem_cons, ih]
    constructor
    · rintro (he | ⟨hn, hg⟩)
      · obtain ⟨h1, h2⟩ := Prod.mk.injEq .. ▸ he
        subst h1
        subst h2
        simp
      · refine ⟨by omega, ?_⟩
        have hs : i - n = (i - (n + 1)) + 1 := by omega
        rw [hs]
        simpa using hg
    · rintro ⟨hn, hg⟩
      rcases Nat.eq_or_lt_of_le hn with he | hlt
      · left
        subst he
        simp only [Nat.sub_self, List.get?] at hg
        injection hg with hg
        subst hg
        rfl
      · right
        refine ⟨by omega, ?_⟩
        have hs : i - n = (i - (n + 1)) + 1 := by omega
        rw [hs] at hg
        simpa using hg

theorem pyEnum_fst : ∀ (l : List α) (n : Nat),
    (pyEnum n l).map Prod.fst = List.range' n l.length := by
  intro l
  induction l with
  | nil => intro n; simp [pyEnum]
  | cons a as ih => intro n; simp [pyEnum, List.range', ih]

theorem lookupG_of_mem_nodup : ∀ (m : List (List Char × List Nat)),
    ((m.map Prod.fst).Nodup) → ∀ kg ∈ m, lookupG m kg.1 = kg.2 := by
  intro m
  induction m with
  | nil => intro _ kg hkg; simp at hkg
  | cons e rest ih =>
    intro hnd kg hkg
    obtain ⟨k0, g0⟩ := e
    simp only [List.map_cons, List.nodup_cons] at hnd
    rcases List.mem_cons.mp hkg with rfl | htail
    · simp [lookupG]
    · have hne : k0 ≠ kg.1 := by
        intro he
        exact hnd.1 (he ▸ (List.mem_map.mpr ⟨kg, htail, rfl⟩))
      simp only [lookupG, if_neg hne]
      exact ih hnd.2 kg htail

theorem lookupG_ne_nil_mem : ∀ (m : List (List Char × List Nat)) (k : List Char),
    lookupG m k ≠ [] → (k, lookupG m k) ∈ m := by
  intro m
  induction m with
  | nil => intro k h; simp [lookupG] at h
  | cons e rest ih =>
    intro k h
    obtain ⟨k0, g0⟩ := e
    by_cases hk : k0 = k
    · subst hk
      simp [lookupG]
    · simp only [lookupG, if_neg hk] at h ⊢
      exact List.mem_cons_of_mem _ (ih _ h)

theorem getD_bridge : ∀ (l : List α) (n : Nat) (d : α),
    (n < l.length → l.get? n = some (l.getD n d)) ∧
    (∀ x, l.get? n = some x → l.getD n d = x) := by
  intro l
  induction l with
  | nil => intro n d; refine ⟨by intro h; simp at h, by intro x h; simp at h⟩
  | cons a as ih =>
    intro n d
    cases n with
    | zero =>
      refine ⟨fun _ => rfl, fun x h => ?_⟩
      cases h
      rfl
    | succ m =>
      refine ⟨fun h => ?_, fun x h => ?_⟩
      · exact (ih m d).1 (by simpa using h)
      · exact (ih m d).2 x (by simpa using h)

theorem countP_flatMap (f : α → List β) (p : β → Bool) : ∀ (l : List α),
    (l.flatMap f).countP p = (l.map fun a => (f a).countP p).sum := by
  intro l
  induction l with
  | nil => simp
  | cons a as ih => simp [List.flatMap_cons, List.countP_append, ih]

theorem lookupG_crcMap (rows : List (List (List Char))) (lineNums : List Nat) (hd : Bool)
    (k : List Char) :
    lookupG (crcMap rows lineNums hd) k =
      ((pyEnum 0 rows).filter (fun p => pairKey hd lineNums p = some k)).map Prod.fst := by
  rw [crcMap, lookupG_crcMapAux]
  simp [lookupG]

theorem crcMap_keys_nodup (rows : List (List (List Char))) (lineNums : List Nat) (hd : Bool) :
    ((crcMap rows lineNums hd).map Prod.fst).Nodup :=
  keys_crcMapAux_nodup hd lineNums (pyEnum 0 rows) [] (by simp)

theorem crcMap_entry_group (rows : List (List (List Char))) (lineNums : List Nat) (hd : Bool) :
    ∀ kg ∈ crcMap rows lineNums hd,
      kg.2 = ((pyEnum 0 rows).filter
        (fun p => pairKey hd lineNums p = some kg.1)).map Prod.fst := by
  intro kg hmem
  rw [← lookupG_of_mem_nodup _ (crcMap_keys_nodup rows lineNums hd) kg hmem,
    lookupG_crcMap]

theorem group_sub_nodup (rows : List (List (List Char))) (q : Nat × List (List Char) → Bool) :
    (((pyEnum 0 rows).filter q).map Prod.fst).Nodup := by
  have hsub : List.Sublist (((pyEnum 0 rows).filter q).map Prod.fst)
      ((pyEnum 0 rows).map Prod.fst) :=
    ((pyEnum 0 rows).filter_sublist).map Prod.fst
  rw [pyEnum_fst] at hsub
  exact hsub.nodup (List.nodup_range' 0 rows.length 1 (by omega))

theorem mem_group_iff (rows : List (List (List Char))) (lineNums : List Nat) (hd : Bool)
    (k : List Char) (j : Nat) :
    (j ∈ ((pyEnum 0 rows).filter (fun p => pairKey hd lineNums p = some k)).map Prod.fst) ↔
      (j < rows.length ∧ pairKey hd lineNums (j, rows.getD j []) = some k) := by
  simp only [List.mem_map, List.mem_filter]
  constructor
  · rintro ⟨⟨idx, row⟩, ⟨hp, hkey⟩, rfl⟩
    rw [mem_pyEnum] at hp
    simp only [Nat.zero_le, Nat.sub_zero, true_and] at hp
    have hlt : idx < rows.length := by
      by_contra hge
      rw [List.get?_eq_none.mpr (by omega)] at hp
      exact Option.noConfusion hp
    have hrow : rows.getD idx [] = row := (getD_bridge rows idx []).2 row hp
    rw [decide_eq_true_eq] at hkey
    exact ⟨hlt, by rw [hrow]; exact hkey⟩
  · rintro ⟨hlt, hkey⟩
    refine ⟨(j, rows.getD j []), ⟨?_, ?_⟩, rfl⟩
    · rw [mem_pyEnum]
      simp only [Nat.zero_le, Nat.sub_zero, true_and]
      exact (getD_bridge rows j []).1 hlt
    · rw [decide_eq_true_eq]
      exact hkey

theorem two_le_length_of_two_mem {l : List Nat} {a b : Nat} (ha : a ∈ l) (hb : b ∈ l)
    (hab : a ≠ b) : 2 ≤ l.length := by
  cases l with
  | nil => simp at ha
  | cons x xs =>
    cases xs with
    | nil =>
      simp only [List.mem_singleton] at ha hb
      exact absurd (ha.trans hb.symm) hab
    | cons y ys => simp only [List.length_cons]; omega

theorem normCrcOf_all_upperHex (crc : List Char) :
    (normCrcOf crc).all isUpperHexChar = true := by
  rw [normCrcOf, List.all_eq_true]
  intro x hx
  have hx' := List.mem_of_mem_take hx
  exact List.all_eq_true.mp (all_zfill_upperHex (all_upperHex_hexRunUp crc) 8) x hx'

theorem normCrcOf_no_colon (crc : List Char) : ∀ x ∈ normCrcOf crc, x ≠ ':' := by
  intro x hx he
  have := List.all_eq_true.mp (normCrcOf_all_upperHex crc) x hx
  subst he
  exact absurd this (by decide)

theorem key_parts_eq : ∀ (a : List Char) {b : List Char} (c : List Char) {d : List Char},
    (∀ x ∈ a, x ≠ ':') → (∀ x ∈ c, x ≠ ':') →
    a ++ ':' :: b = c ++ ':' :: d → a = c ∧ b = d := by
  intro a
  induction a with
  | nil =>
    intro b c d _ hc h
    cases c with
    | nil => simpa using h
    | cons c0 cs =>
      simp only [List.nil_append, List.cons_append, List.cons.injEq] at h
      exact absurd h.1.symm (hc c0 (by simp))
  | cons a0 as ih =>
    intro b c d ha hc h
    cases c with
    | nil =>
      simp only [List.cons_append, List.nil_append, List.cons.injEq] at h
      exact absurd h.1 (ha a0 (by simp))
    | cons c0 cs =>
      simp only [List.cons_append, List.cons.injEq] at h
      obtain ⟨h0, htail⟩ := h
      obtain ⟨h1, h2⟩ := ih cs (fun x hx => ha x (by simp [hx]))
        (fun x hx => hc x (by simp [hx])) htail
      exact ⟨by rw [h0, h1], h2⟩

theorem splitFirst_no_sep (a b : List Char) (ha : ∀ x ∈ a, x ≠ ':') :
    splitFirst ':' (a ++ ':' :: b) = (a, some b) := by
  induction a with
  | nil => simp [splitFirst]
  | cons a0 as ih =>
    simp only [List.cons_append, splitFirst]
    rw [if_neg (ha a0 (by simp))]
    simp only [List.append_eq]
    rw [ih (fun x hx => ha x (by simp [hx]))]

theorem dupKey_some (row : List (List Char)) (k : List Char) (h : dupKey row = some k) :
    k = normCrcOf (rowCrcField row) ++ ':' :: normSizeStr (rowSizeField row) ∧
    (rowCrcField row).filter isHexChar ≠ [] := by
  unfold dupKey at h
  split at h
  · exact Option.noConfusion h
  · next hne =>
    injection h with h
    exact ⟨h.symm, hne⟩

theorem getD_eq_get (l : List α) (n : Nat) (d : α) (h : n < l.length) :
    l.getD n d = l.get ⟨n, h⟩ :=
  (getD_bridge l n d).2 (l.get ⟨n, h⟩) (List.get?_eq_get h)

/-- C10.  A row whose Checksum field contains no hexadecimal
characters is never assigned a duplicate key (it appears in no group
of `crc_map`) and never receives a duplicate-CRC32 issue, even when
other rows share the same (empty-hex, size) combination. -/
theorem c10_empty_hex_rows_skipped (rows : List (List (List Char))) (lineNums : List Nat)
    (hd : Bool) (hlen : lineNums.length = rows.length) (hnd : lineNums.Nodup)
    (i : Nat) (hi : i < rows.length)
    (hhex : (rowCrcField (rows.getD i [])).filter isHexChar = []) :
    (∀ kg ∈ crcMap rows lineNums hd, i ∉ kg.2) ∧
    (∀ iss ∈ dupIssues rows lineNums hd, iss.line_num ≠ lineNums.getD i 0) := by
  have hpairnone : pairKey hd lineNums (i, rows.getD i []) = none := by
    unfold pairKey
    split
    · rfl
    · show dupKey (rows.getD i []) = none
      unfold dupKey
      rw [if_pos hhex]
  constructor
  · intro kg hkg hmem
    rw [crcMap_entry_group rows lineNums hd kg hkg, mem_group_iff] at hmem
    rw [hpairnone] at hmem
    exact Option.noConfusion hmem.2
  · intro iss hiss
    rw [dupIssues, List.mem_flatMap] at hiss
    obtain ⟨kg, hkg, hin⟩ := hiss
    split at hin
    · rw [List.mem_map] at hin
      obtain ⟨t, ht, rfl⟩ := hin
      rw [crcMap_entry_group rows lineNums hd kg hkg, mem_group_iff] at ht
      obtain ⟨htlt, htkey⟩ := ht
      have htne : t ≠ i := by
        intro he
        rw [he, hpairnone] at htkey
        exact Option.noConfusion htkey
      simp only
      rw [getD_eq_get lineNums t 0 (by omega), getD_eq_get lineNums i 0 (by omega)]
      intro hcontra
      have := List.Nodup.get_inj_iff hnd |>.mp hcontra
      exact htne (by simpa using this)
    · simp at hin

theorem c10_empty_hex_rows_skipped_witness :
    ((2 : Nat) < 3 ∧ (rowCrcField ([[S "a", S "5", S "", S "p", S ""],
        [S "b", S "5", S "", S "p", S ""], [S "c", S "5", S "zz", S "p", S ""]].getD 2 [])).filter
        isHexChar = []) ∧
    ∀ iss ∈ dupIssues [[S "a", S "5", S "", S "p", S ""], [S "b", S "5", S "", S "p", S ""],
        [S "c", S "5", S "zz", S "p", S ""]] [1, 2, 3] false,
      iss.line_num ≠ [1, 2, 3].getD 2 0 :=
  ⟨⟨by decide, by decide⟩,
    (c10_empty_hex_rows_skipped [[S "a", S "5", S "", S "p", S ""],
        [S "b", S "5", S "", S "p", S ""], [S "c", S "5", S "zz", S "p", S ""]] [1, 2, 3] false
      (by decide) (by decide) 2 (by decide) (by decide)).2⟩

theorem pairKey_eq_some (hd : Bool) (lineNums : List Nat) (t : Nat) (row : List (List Char))
    (hh : isHeaderIdx hd lineNums t = false)
    (hx : (rowCrcField row).filter isHexChar ≠ []) :
    pairKey hd lineNums (t, row) =
      some (normCrcOf (rowCrcField row) ++ ':' :: normSizeStr (rowSizeField row)) := by
  unfold pairKey
  rw [if_neg (by simp [hh])]
  unfold dupKey
  rw [if_neg hx]

theorem pairKey_some_parts (hd : Bool) (lineNums : List Nat) (p : Nat × List (List Char))
    (k : List Char) (h : pairKey hd lineNums p = some k) :
    isHeaderIdx hd lineNums p.1 = false ∧ (rowCrcField p.2).filter isHexChar ≠ [] ∧
    k = normCrcOf (rowCrcField p.2) ++ ':' :: normSizeStr (rowSizeField p.2) := by
  unfold pairKey at h
  split at h
  · exact Option.noConfusion h
  · next hh =>
    obtain ⟨hk, hne⟩ := dupKey_some _ _ h
    refine ⟨?_, hne, hk⟩
    revert hh
    cases isHeaderIdx hd lineNums p.1 <;> simp

theorem lineNum_ne (lineNums : List Nat) (hnd : lineNums.Nodup) (t i : Nat)
    (ht : t < lineNums.length) (hi : i < lineNums.length) (hne : t ≠ i) :
    lineNums.getD t 0 ≠ lineNums.getD i 0 := by
  rw [getD_eq_get _ _ _ ht, getD_eq_get _ _ _ hi]
  intro hc
  have := (List.Nodup.get_inj_iff hnd).mp hc
  exact hne (by simpa using this)

theorem countP_agree (p q : α → Bool) : ∀ (l : List α), (∀ a ∈ l, p a = q a) →
    l.countP p = l.countP q := by
  intro l
  induction l with
  | nil => intro _; rfl
  | cons a rest ih =>
    intro h
    rw [List.countP_cons, List.countP_cons, h a (by simp), ih (fun b hb => h b (by simp [hb]))]

theorem sum_map_ite_count (g : α → Nat) (key : α → List Char) (k : List Char) :
    ∀ (m : List α), (∀ a ∈ m, g a = if key a = k then 1 else 0) →
      (m.map g).sum = (m.map key).countP (fun x => decide (x = k)) := by
  intro m
  induction m with
  | nil => intro _; rfl
  | cons a rest ih =>
    intro h
    simp only [List.map_cons, List.sum_cons, List.countP_cons]
    rw [h a (by simp), ih (fun b hb => h b (by simp [hb]))]
    by_cases hk : key a = k
    · simp [hk]
      omega
    · simp [hk]

theorem countP_eq_one_of_nodup_mem {l : List (List Char)} {k : List Char} (hnd : l.Nodup)
    (hk : k ∈ l) : l.countP (fun x => decide (x = k)) = 1 := by
  induction l with
  | nil => simp at hk
  | cons a rest ih =>
    rw [List.countP_cons]
    rcases List.nodup_cons.mp hnd with ⟨hna, hrest⟩
    rcases List.mem_cons.mp hk with rfl | hmem
    · have hz : rest.countP (fun x => decide (x = k)) = 0 :=
        List.countP_eq_zero.mpr fun x hx => by
          simp only [decide_eq_true_eq]
          intro he
          exact hna (he ▸ hx)
      simp [hz]
    · have hak : ¬(a = k) := fun he => hna (he ▸ hmem)
      rw [ih hrest hmem]
      simp [hak]

/-- The claim-side notion of the set of colliding row indices: the
indices whose duplicate key matches that of row `i`, in row order. -/
def collidingIdx (rows : List (List (List Char))) (lineNums : List Nat) (hd : Bool)
    (i : Nat) : List Nat :=
  ((pyEnum 0 rows).filter (fun p => pairKey hd lineNums p =
      pairKey hd lineNums (i, rows.getD i []))).map Prod.fst

/-- C5 (counterexample).  Two rows whose Checksum fields contain no
hex characters at all (`""` and `"zz"`) have identical normalized
checksums (`"00000000"` by the claim's normalization) and identical
normalized sizes, yet the duplicate pass emits no issue for them: the
code skips rows with no hex characters (line 653) before keying. -/
theorem c5_counterexample :
    (normCrcOf (S "") = normCrcOf (S "zz")) ∧
    (normCrcOf (S "") = S "00000000") ∧
    (normSizeStr (S "5") = normSizeStr (S "5")) ∧
    dupIssues [[S "x", S "5", S "", S "p", S ""], [S "y", S "5", S "zz", S "p", S ""]]
      [1, 2] false = [] := by decide

theorem countP_map_unique (l : List Nat) (f : Nat → CSVValidationIssue)
    (p : CSVValidationIssue → Bool) (i : Nat) (hl : l.Nodup) (hi : i ∈ l)
    (hpi : p (f i) = true) (hothers : ∀ t ∈ l, t ≠ i → p (f t) = false) :
    (l.map f).countP p = 1 := by
  rw [List.countP_map]
  refine Eq.trans (countP_agree (p ∘ f) (fun t => t == i) l ?_) ?_
  · intro t ht
    by_cases hti : t = i
    · subst hti
      simp [Function.comp, hpi]
    · simp [Function.comp, hothers t ht hti, hti]
  · rw [← List.count_eq_countP]
    exact List.count_eq_one_of_mem hl hi

theorem countP_map_zero (l : List Nat) (f : Nat → CSVValidationIssue)
    (p : CSVValidationIssue → Bool) (h : ∀ t ∈ l, p (f t) = false) :
    (l.map f).countP p = 0 := by
  rw [List.countP_map]
  apply List.countP_eq_zero.mpr
  intro t ht
  simp [Function.comp, h t ht]

theorem exists_other_mem {l : List Nat} {a : Nat} (hnd : l.Nodup) (ha : a ∈ l)
    (h2 : 2 ≤ l.length) : ∃ b ∈ l, b ≠ a := by
  cases l with
  | nil => simp at ha
  | cons x xs =>
    cases xs with
    | nil => simp at h2
    | cons y ys =>
      by_cases hax : a = x
      · subst hax
        refine ⟨y, by simp, ?_⟩
        intro he
        subst he
        rcases List.nodup_cons.mp hnd with ⟨hnx, _⟩
        exact hnx (by simp)
      · exact ⟨x, by simp, fun he => hax he.symm⟩

/-- C5 (amended).  Restricted to rows whose Checksum field contains at
least one hex character: any two distinct non-header rows with
identical normalized checksum and identical normalized size cause
row `i` to receive exactly one duplicate-CRC32 issue, and every issue
citing row `i`'s line cites the normalized checksum, the normalized
size, and the line numbers of all colliding rows; a non-header row
whose normalized size differs from that of every other row sharing
its normalized checksum receives no duplicate issue at all. -/
theorem c5_duplicate_detection (rows : List (List (List Char))) (lineNums : List Nat)
    (hd : Bool) (hlen : lineNums.length = rows.length) (hnd : lineNums.Nodup)
    (i j : Nat) (hi : i < rows.length) (hj : j < rows.length) (hij : i ≠ j)
    (hdi : isHeaderIdx hd lineNums i = false) (hdj : isHeaderIdx hd lineNums j = false)
    (hhexi : (rowCrcField (rows.getD i [])).filter isHexChar ≠ [])
    (hhexj : (rowCrcField (rows.getD j [])).filter isHexChar ≠ [])
    (hcrc : normCrcOf (rowCrcField (rows.getD i [])) = normCrcOf (rowCrcField (rows.getD j [])))
    (hsize : normSizeStr (rowSizeField (rows.getD i [])) =
      normSizeStr (rowSizeField (rows.getD j []))) :
    ((dupIssues rows lineNums hd).countP
        (fun iss => iss.line_num == lineNums.getD i 0) = 1) ∧
    (∀ iss ∈ dupIssues rows lineNums hd, iss.line_num = lineNums.getD i 0 →
      iss.field_num = 3 ∧ iss.field_name = S "CRC32" ∧
      iss.original_value = rowCrcField (rows.getD i []) ∧
      iss.issue_type = dupMsg (normCrcOf (rowCrcField (rows.getD i [])))
        (normSizeStr (rowSizeField (rows.getD i [])))
        (List.intercalate (S ", ")
          ((collidingIdx rows lineNums hd i).map (fun t => natStr (lineNums.getD t 0))))) ∧
    (∀ k2, k2 < rows.length → isHeaderIdx hd lineNums k2 = false →
      (∀ j2, j2 < rows.length → j2 ≠ k2 →
        normCrcOf (rowCrcField (rows.getD j2 [])) = normCrcOf (rowCrcField (rows.getD k2 [])) →
        normSizeStr (rowSizeField (rows.getD j2 [])) ≠
          normSizeStr (rowSizeField (rows.getD k2 []))) →
      ∀ iss ∈ dupIssues rows lineNums hd, iss.line_num ≠ lineNums.getD k2 0) := by
  have hpairi : pairKey hd lineNums (i, rows.getD i []) =
      some (normCrcOf (rowCrcField (rows.getD i [])) ++ ':' ::
        normSizeStr (rowSizeField (rows.getD i []))) :=
    pairKey_eq_some hd lineNums i (rows.getD i []) hdi hhexi
  have hpairj : pairKey hd lineNums (j, rows.getD j []) =
      some (normCrcOf (rowCrcField (rows.getD i [])) ++ ':' ::
        normSizeStr (rowSizeField (rows.getD i []))) := by
    rw [pairKey_eq_some hd lineNums j (rows.getD j []) hdj hhexj, hcrc, hsize]
  set keyI := normCrcOf (rowCrcField (rows.getD i [])) ++ ':' ::
      normSizeStr (rowSizeField (rows.getD i [])) with hkeyI
  have hGdef := lookupG_crcMap rows lineNums hd keyI
  have hiG : i ∈ lookupG (crcMap rows lineNums hd) keyI := by
    rw [hGdef, mem_group_iff]
    exact ⟨hi, hpairi⟩
  have hjG : j ∈ lookupG (crcMap rows lineNums hd) keyI := by
    rw [hGdef, mem_group_iff]
    exact ⟨hj, hpairj⟩
  have hGne : lookupG (crcMap rows lineNums hd) keyI ≠ [] := by
    intro he
    rw [he] at hiG
    simp at hiG
  have hGmem : (keyI, lookupG (crcMap rows lineNums hd) keyI) ∈ crcMap rows lineNums hd :=
    lookupG_ne_nil_mem _ _ hGne
  have hkeys : keyI ∈ (crcMap rows lineNums hd).map Prod.fst :=
    List.mem_map.mpr ⟨(keyI, lookupG (crcMap rows lineNums hd) keyI), hGmem, rfl⟩
  have hmemg : ∀ kg ∈ crcMap rows lineNums hd, ∀ t ∈ kg.2,
      t < rows.length ∧ pairKey hd lineNums (t, rows.getD t []) = some kg.1 := by
    intro kg hkg t ht
    rw [crcMap_entry_group rows lineNums hd kg hkg, mem_group_iff] at ht
    exact ht
  have hgnodup : ∀ kg ∈ crcMap rows lineNums hd, kg.2.Nodup := by
    intro kg hkg
    rw [crcMap_entry_group rows lineNums hd kg hkg]
    exact group_sub_nodup rows _
  refine ⟨?_, ?_, ?_⟩
  · unfold dupIssues
    rw [countP_flatMap]
    refine Eq.trans (sum_map_ite_count _ Prod.fst keyI _ ?_) ?_
    · intro kg hkg
      by_cases h2 : 2 ≤ kg.2.length
      · rw [if_pos h2]
        by_cases hkey : kg.1 = keyI
        · rw [if_pos hkey]
          have higt : i ∈ kg.2 := by
            rw [crcMap_entry_group rows lineNums hd kg hkg, mem_group_iff, hkey]
            exact ⟨hi, hpairi⟩
          refine countP_map_unique kg.2 _ _ i (hgnodup kg hkg) higt (by simp) ?_
          intro t ht hti
          obtain ⟨htlt, _⟩ := hmemg kg hkg t ht
          have hne := lineNum_ne lineNums hnd t i (by omega) (by omega) hti
          simpa using hne
        · rw [if_neg hkey]
          refine countP_map_zero kg.2 _ _ ?_
          intro t ht
          obtain ⟨htlt, htkey⟩ := hmemg kg hkg t ht
          have hti : t ≠ i := by
            intro he
            subst he
            rw [hpairi] at htkey
            injection htkey with hinj
            exact hkey hinj.symm
          have hne := lineNum_ne lineNums hnd t i (by omega) (by omega) hti
          simpa using hne
      · rw [if_neg h2]
        simp only [List.countP_nil]
        rw [if_neg ?_]
        intro hkey
        have higt : i ∈ kg.2 := by
          rw [crcMap_entry_group rows lineNums hd kg hkg, mem_group_iff, hkey]
          exact ⟨hi, hpairi⟩
        have hjgt : j ∈ kg.2 := by
          rw [crcMap_entry_group rows lineNums hd kg hkg, mem_group_iff, hkey]
          exact ⟨hj, hpairj⟩
        exact h2 (two_le_length_of_two_mem hjgt higt (fun he => hij he.symm))
    · exact countP_eq_one_of_nodup_mem (crcMap_keys_nodup rows lineNums hd) hkeys
  · intro iss hiss hline
    unfold dupIssues at hiss
    rw [List.mem_flatMap] at hiss
    obtain ⟨kg, hkg, hin⟩ := hiss
    split at hin
    · rw [List.mem_map] at hin
      obtain ⟨t, ht, rfl⟩ := hin
      obtain ⟨htlt, htkey⟩ := hmemg kg hkg t ht
      simp only at hline
      have hti : t = i := by
        by_contra hne
        exact lineNum_ne lineNums hnd t i (by omega) (by omega) hne hline
      subst hti
      have hk : kg.1 = keyI := by
        have := hpairi.symm.trans htkey
        injection this with hinj
        exact hinj.symm
      have hsp : splitFirst ':' kg.1 =
          (normCrcOf (rowCrcField (rows.getD t [])),
            some (normSizeStr (rowSizeField (rows.getD t [])))) := by
        rw [hk, hkeyI]
        exact splitFirst_no_sep _ _ (normCrcOf_no_colon _)
      have hgroup : kg.2 = collidingIdx rows lineNums hd t := by
        rw [crcMap_entry_group rows lineNums hd kg hkg, collidingIdx, hpairi, hk]
      refine ⟨rfl, rfl, rfl, ?_⟩
      simp only [hsp, hgroup]
      rfl
    · simp at hin
  · intro k2 hk2 hhdr2 hsz2 iss hiss hline
    unfold dupIssues at hiss
    rw [List.mem_flatMap] at hiss
    obtain ⟨kg, hkg, hin⟩ := hiss
    split at hin
    · next h2 =>
      rw [List.mem_map] at hin
      obtain ⟨t, ht, rfl⟩ := hin
      obtain ⟨htlt, htkey⟩ := hmemg kg hkg t ht
      simp only at hline
      have hti : t = k2 := by
        by_contra hne
        exact lineNum_ne lineNums hnd t k2 (by omega) (by omega) hne hline
      subst hti
      obtain ⟨t2, ht2, ht2ne⟩ := exists_other_mem (hgnodup kg hkg) ht h2
      obtain ⟨ht2lt, ht2key⟩ := hmemg kg hkg t2 ht2
      obtain ⟨_, _, hparts1⟩ := pairKey_some_parts hd lineNums _ _ htkey
      obtain ⟨_, _, hparts2⟩ := pairKey_some_parts hd lineNums _ _ ht2key
      have heq := hparts1.symm.trans hparts2
      obtain ⟨hcrceq, hsizeeq⟩ := key_parts_eq _ _ (normCrcOf_no_colon _)
        (normCrcOf_no_colon _) heq
      exact hsz2 t2 ht2lt ht2ne hcrceq.symm (by rw [hsizeeq])
    · simp at hin

theorem c5_duplicate_detection_witness :
    (((rowCrcField ([[S "a", S "5", S "AA", S "p", S ""],
        [S "b", S "5", S "aa", S "q", S ""]].getD 0 [])).filter isHexChar ≠ []) ∧
      normCrcOf (rowCrcField ([[S "a", S "5", S "AA", S "p", S ""],
        [S "b", S "5", S "aa", S "q", S ""]].getD 0 [])) =
      normCrcOf (rowCrcField ([[S "a", S "5", S "AA", S "p", S ""],
        [S "b", S "5", S "aa", S "q", S ""]].getD 1 []))) ∧
    (dupIssues [[S "a", S "5", S "AA", S "p", S ""], [S "b", S "5", S "aa", S "q", S ""]]
        [1, 2] false).countP (fun iss => iss.line_num == [1, 2].getD 0 0) = 1 :=
  ⟨⟨by decide, by decide⟩,
    (c5_duplicate_detection [[S "a", S "5", S "AA", S "p", S ""],
        [S "b", S "5", S "aa", S "q", S ""]] [1, 2] false (by decide) (by decide) 0 1
      (by decide) (by decide) (by decide) (by decide) (by decide) (by decide) (by decide)
      (by decide) (by decide)).1⟩
